import Mathlib

set_option maxHeartbeats 1000000
set_option maxRecDepth 8000

/-!
Shallow embedding of the article-transformation core of `httpedia.py`
(a minimal Wikipedia proxy for vintage browsers), with proofs about the
specification claims.

Modelling conventions:
* Python strings are `String` / `List Char`; the Unicode-aware parts of
  Python's `re` and `str` (whitespace class, digit class) are modelled on
  their ASCII fragment, which is what the source ever feeds them.
* `re.sub(pat, '', s)` is a left-to-right scan removing non-overlapping
  matches of the original string without rescanning spliced text, exactly
  as Python's `re.sub` behaves.
* `re.match(r'^[...]+$', s)` keeps Python's quirk that `$` also matches
  just before one trailing newline.
* BeautifulSoup trees are a mutual inductive of element/text nodes;
  external capabilities (network, PIL, md5, the cache files) are explicit
  oracle parameters.
-/

/-- ASCII part of Python's `\s` class and of the `str.strip` default set. -/
def isPySpace (c : Char) : Bool :=
  c == ' ' || c == '\t' || c == '\n' || c == '\r' || c == '\x0b' || c == '\x0c'

/-- Worker for `re.sub(r'\s+', ' ', s)`: the flag records whether the
previous character was whitespace (we are inside a run already replaced). -/
def collapseAux : Bool → List Char → List Char
  | _, [] => []
  | prevWs, c :: cs =>
      if isPySpace c then
        if prevWs then collapseAux true cs else ' ' :: collapseAux true cs
      else c :: collapseAux false cs

/-- `re.sub(r'\s+', ' ', s)`: collapse every whitespace run to one space. -/
def collapseWs (l : List Char) : List Char := collapseAux false l

/-- Python `str.strip()` on a character list. -/
def pyStripL (l : List Char) : List Char :=
  ((l.dropWhile isPySpace).reverse.dropWhile isPySpace).reverse

/-- Python `str.strip()`. -/
def pyStrip (s : String) : String := String.mk (pyStripL s.data)

/-- `markupsafe.escape` on one character (the five HTML specials). -/
def escChar (c : Char) : List Char :=
  if c = '&' then "&amp;".data
  else if c = '<' then "&lt;".data
  else if c = '>' then "&gt;".data
  else if c = '"' then "&#34;".data
  else if c = Char.ofNat 39 then "&#39;".data
  else [c]

/-- `markupsafe.escape` on a character list. -/
def escapeL (l : List Char) : List Char := (l.map escChar).flatten

/-- `markupsafe.escape`. -/
def escapeS (s : String) : String := String.mk (escapeL s.data)

/-- Does `l` contain `pat` as a contiguous substring (Python `pat in s`)? -/
def hasLit (pat : List Char) : List Char → Bool
  | [] => pat.isEmpty
  | c :: cs => pat.isPrefixOf (c :: cs) || hasLit pat cs

/-- Python `pat in s` for strings. -/
def containsSub (pat s : String) : Bool := hasLit pat.data s.data

/-- `re.sub(pat, '', s)` for a literal pattern: remove every
non-overlapping match, scanning left to right, never rescanning the
spliced result. -/
def removeLit (pat : List Char) : List Char → List Char
  | [] => []
  | c :: cs =>
      if pat.isPrefixOf (c :: cs) then removeLit pat (List.drop (pat.length - 1) cs)
      else c :: removeLit pat cs
termination_by l => l.length
decreasing_by
  · simp [List.length_drop]; omega
  · simp

/-- Match of `\d+\]` at the head of `l` (the part of `\[\d+\]` after the
bracket): returns the remainder after the closing bracket. -/
def digMatch (l : List Char) : Option (List Char) :=
  if l.takeWhile Char.isDigit ≠ [] ∧ (l.dropWhile Char.isDigit).head? = some ']' then
    some (l.dropWhile Char.isDigit).tail
  else none

/-- `re.sub(r'\[\d+\]', '', s)`: remove every bracketed digit marker,
left to right, without rescanning spliced text. -/
def removeDig : List Char → List Char
  | [] => []
  | c :: cs =>
      if c = '[' then
        match h : digMatch cs with
        | some rest => removeDig rest
        | none => c :: removeDig cs
      else c :: removeDig cs
termination_by l => l.length
decreasing_by
  · have hrest : rest.length < cs.length := by
      unfold digMatch at h
      split at h
      · rename_i hcond
        cases h
        have hd : (cs.dropWhile Char.isDigit).length ≤ cs.length := by
          clear hcond
          induction cs with
          | nil => simp
          | cons a as ih =>
              rw [List.dropWhile_cons]
              split
              · exact Nat.le_trans ih (by simp)
              · simp
        have hne : cs.dropWhile Char.isDigit ≠ [] := by
          intro hnil
          rw [hnil] at hcond
          simp at hcond
        have : (cs.dropWhile Char.isDigit).tail.length
            < (cs.dropWhile Char.isDigit).length := by
          cases hdw : cs.dropWhile Char.isDigit with
          | nil => exact absurd hdw hne
          | cons a as => simp [hdw]
        omega
      · cases h
    simp
    omega
  · simp
  · simp

/-- Does `l` contain a `\[\d+\]` match? -/
def hasDig : List Char → Bool
  | [] => false
  | c :: cs => (c == '[' && (digMatch cs).isSome) || hasDig cs

/-- No nested opening brackets: scanning left to right, we never meet a
second `[` before an intervening `]`.  The flag says whether a `[` is
currently open. -/
def noNestAux : Bool → List Char → Bool
  | _, [] => true
  | opened, c :: cs =>
      if c = '[' then !opened && noNestAux true cs
      else if c = ']' then noNestAux false cs
      else noNestAux opened cs

/-- No second `[` before an intervening `]` anywhere in `l`. -/
def noNest (l : List Char) : Bool := noNestAux false l

def editPat : List Char := "[edit]".data

def citPat : List Char := "[citation needed]".data

/-- `re.sub(r'\[edit\]', '', ·)` -/
def removeEdit (l : List Char) : List Char := removeLit editPat l

/-- `re.sub(r'\[citation needed\]', '', ·)` -/
def removeCit (l : List Char) : List Char := removeLit citPat l

/-- The shared tail of `process_paragraph` and `clean_text`: strip
`[edit]`, then `[<digits>]`, then `[citation needed]`, then trim. -/
def stripMarkersL (l : List Char) : List Char :=
  pyStripL (removeCit (removeDig (removeEdit l)))

/-- Post-processing applied by `process_paragraph` to the concatenated
inline result (httpedia.py lines 893-897). -/
def postProcess (s : String) : String := String.mk (stripMarkersL s.data)

/-- `clean_text` from httpedia.py: collapse whitespace, strip the three
citation artifacts, trim. -/
def clean_text (s : String) : String :=
  String.mk (stripMarkersL (collapseWs s.data))

/-- Digit tail of a Python int literal: digits with single underscores
between digits. `acc` is the value read so far. -/
def pyDigitsGo (acc : Nat) : List Char → Option Nat
  | [] => some acc
  | c :: cs =>
      if c.isDigit then pyDigitsGo (acc * 10 + (c.toNat - 48)) cs
      else if c = '_' then
        match cs with
        | [] => none
        | d :: ds =>
            if d.isDigit then pyDigitsGo (acc * 10 + (d.toNat - 48)) ds else none
      else none

/-- Digits of a Python int literal (must start with a digit). -/
def pyDigits : List Char → Option Nat
  | [] => none
  | c :: cs => if c.isDigit then pyDigitsGo (c.toNat - 48) cs else none

/-- Python `int(s)`: optional surrounding whitespace, optional sign,
decimal digits with single underscores between digits; `none` models the
`ValueError`. -/
def pyInt (s : String) : Option Int :=
  match pyStripL s.data with
  | '+' :: r => (pyDigits r).map (fun n => (n : Int))
  | '-' :: r => (pyDigits r).map (fun n => -(n : Int))
  | l => (pyDigits l).map (fun n => (n : Int))

/-! ## The document tree (BeautifulSoup) -/

mutual
/-- A parsed node: an element (tag, attribute map, class list, ordered
children) or a text leaf (`NavigableString`). -/
inductive Node where
  | elem (tag : String) (attrs : List (String × String)) (cls : List String)
      (children : NodeList)
  | text (s : String)
/-- An ordered list of sibling nodes. -/
inductive NodeList where
  | nil
  | cons (n : Node) (rest : NodeList)
end

/-- bs4 `.name`: `none` for a `NavigableString`. -/
def Node.name : Node → Option String
  | .elem t _ _ _ => some t
  | .text _ => none

/-- Attribute lookup in an attribute map. -/
def attrLookup (attrs : List (String × String)) (key : String) : Option String :=
  (attrs.find? (fun p => p.1 == key)).map (fun p => p.2)

def Node.attrs : Node → List (String × String)
  | .elem _ a _ _ => a
  | .text _ => []

def Node.cls : Node → List String
  | .elem _ _ k _ => k
  | .text _ => []

/-- bs4 `tag.get(key)`. -/
def Node.get (n : Node) (key : String) : Option String := attrLookup n.attrs key

/-- bs4 `tag.get(key, dflt)`. -/
def Node.getD (n : Node) (key dflt : String) : String := (n.get key).getD dflt

def NodeList.toList : NodeList → List Node
  | .nil => []
  | .cons n rest => n :: rest.toList

/-- number of direct children, bs4 `len(list(tag.children))`. -/
def Node.childCount : Node → Nat
  | .elem _ _ _ cs => cs.toList.length
  | .text _ => 0

mutual
/-- bs4 `get_text()`: concatenation of every text descendant. -/
def Node.getText : Node → String
  | .text s => s
  | .elem _ _ _ children => NodeList.getTextL children
def NodeList.getTextL : NodeList → String
  | .nil => ""
  | .cons n rest => Node.getText n ++ NodeList.getTextL rest
end

/-- bs4 `.string`: a text node is itself; an element with a single child
defers to that child; anything else is `None`. -/
def Node.nodeString : Node → Option String
  | .text s => some s
  | .elem _ _ _ (.cons c .nil) => Node.nodeString c
  | .elem _ _ _ _ => none

mutual
/-- bs4 `find_all(pred)` over a sibling list: document (pre-)order. -/
def findAllL (p : Node → Bool) : NodeList → List Node
  | .nil => []
  | .cons n rest => (if p n then [n] else []) ++ findAllAux p n ++ findAllL p rest
/-- descendants of one node matching `p`, document order. -/
def findAllAux (p : Node → Bool) : Node → List Node
  | .text _ => []
  | .elem _ _ _ cs => findAllL p cs
end

/-- bs4 `root.find_all(pred)`: matching descendants in document order
(the root itself is not considered). -/
def Node.findAll (n : Node) (p : Node → Bool) : List Node := findAllAux p n

/-! ## Inline Text Renderer (`process_paragraph`, httpedia.py 852-897) -/

mutual
/-- `process_paragraph` from httpedia.py: flatten an inline subtree into a
single safe HTML string, then post-process citation artifacts. -/
def process_paragraph : Node → String → String
  | Node.text _, _ => postProcess ""
  | Node.elem _ _ _ children, prefs => postProcess (inlinePieces children prefs)
/-- concatenation of the strings appended by the `for child in
element.children` loop of `process_paragraph`. -/
def inlinePieces : NodeList → String → String
  | NodeList.nil, _ => ""
  | NodeList.cons c rest, prefs => inlinePiece c prefs ++ inlinePieces rest prefs
/-- the string one loop iteration of `process_paragraph` appends for a
child (empty when the iteration appends nothing). -/
def inlinePiece : Node → String → String
  | Node.text s, _ =>
      -- a text node fails every tag test; `child.string` is the node itself,
      -- and an empty (falsy) string falls through to the `get_text` branch
      if s = "" then escapeS (String.mk (collapseWs "".data))
      else escapeS (String.mk (collapseWs s.data))
  | Node.elem tag attrs cls children, prefs =>
      if tag = "a" then
        let href := (attrLookup attrs "href").getD ""
        let txt := NodeList.getTextL children
        if pyStrip txt = "" then ""
        else if "/wiki/".data.isPrefixOf href.data && !hasLit [':'] href.data then
          if prefs ≠ "" then
            "<a href=\"" ++ escapeS href ++ "?" ++ prefs ++ "\">" ++ escapeS txt ++ "</a>"
          else
            "<a href=\"" ++ escapeS href ++ "\">" ++ escapeS txt ++ "</a>"
        else ""
      else if tag = "b" || tag = "strong" then
        let txt := NodeList.getTextL children
        if pyStrip txt = "" then "" else escapeS txt
      else if tag = "i" || tag = "em" then
        let txt := NodeList.getTextL children
        if pyStrip txt = "" then "" else "<i>" ++ escapeS txt ++ "</i>"
      else if tag = "br" then "<br>"
      else if tag = "span" || tag = "small" || tag = "sup" || tag = "sub" then
        -- `process_paragraph(child, prefs)` unfolded one step to keep the
        -- recursion structural
        postProcess (inlinePieces children prefs)
      else
        match Node.nodeString (Node.elem tag attrs cls children) with
        | some s =>
            if s = "" then
              escapeS (String.mk (collapseWs (NodeList.getTextL children).data))
            else escapeS (String.mk (collapseWs s.data))
        | none => escapeS (String.mk (collapseWs (NodeList.getTextL children).data))
end


/-! ## Block Structure Renderer (`process_element` etc., httpedia.py 795-919) -/

/-- The heading branch shared by `h2..h6` and `mw-heading` children:
`clean_text(get_text())`, a second `[edit]` strip, trim, emit unless
empty. -/
def headingLine (tag : String) (raw : String) : List String :=
  let txt := pyStrip (String.mk (removeEdit (clean_text raw).data))
  if txt = "" then [] else ["<" ++ tag ++ ">" ++ escapeS txt ++ "</" ++ tag ++ ">"]

/-- direct `li` children, bs4 `find_all('li', recursive=False)`. -/
def liChildren : Node → List Node
  | .elem _ _ _ cs => cs.toList.filter (fun c => c.name == some "li")
  | .text _ => []

/-- `process_list` from httpedia.py (returned here as zero-or-one block
lines rather than a possibly empty string). -/
def process_list (n : Node) (ordered : Bool) (prefs : String) : List String :=
  let items := (liChildren n).filterMap (fun li =>
      let html := process_paragraph li prefs
      if pyStrip html = "" then none else some ("<li>" ++ html ++ "</li>"))
  if items = [] then []
  else
    let tag := if ordered then "ol" else "ul"
    ["<" ++ tag ++ ">\n" ++ String.intercalate "\n" items ++ "\n</" ++ tag ++ ">"]

/-- the `dl` branch of `process_element`: iterate children, `dt` becomes a
bolded paragraph (unconditionally), `dd` a rendered paragraph if
non-empty. -/
def dlLines : NodeList → String → List String
  | NodeList.nil, _ => []
  | NodeList.cons c rest, prefs =>
      (match c.name with
       | some t =>
           if t = "dt" then
             ["<p><b>" ++ escapeS (clean_text c.getText) ++ "</b></p>"]
           else if t = "dd" then
             let html := process_paragraph c prefs
             if pyStrip html = "" then [] else ["<p>" ++ html ++ "</p>"]
           else []
       | none => []) ++ dlLines rest prefs

def isHeadingName : Option String → Bool
  | some t => t = "h2" || t = "h3" || t = "h4" || t = "h5" || t = "h6"
  | none => false

/-- the `mw-heading` div branch: only direct heading children are
rendered. -/
def headingChildren (cs : NodeList) : List String :=
  ((cs.toList.filter (fun c => isHeadingName c.name)).map
      (fun h => headingLine ((h.name).getD "") h.getText)).flatten

mutual
/-- `process_element` from httpedia.py: the lines appended for a subtree
(the source mutates a `lines` accumulator; we return the appended
lines). -/
def process_element : Node → String → List String
  | Node.text _, _ => []
  | Node.elem _ _ _ children, prefs => processChildren children prefs
/-- the `for child in element.children` loop of `process_element`. -/
def processChildren : NodeList → String → List String
  | NodeList.nil, _ => []
  | NodeList.cons c rest, prefs => blockLines c prefs ++ processChildren rest prefs
/-- lines appended for one direct child of `process_element`. -/
def blockLines : Node → String → List String
  | Node.text _, _ => []
  | Node.elem tag attrs cls children, prefs =>
      if tag = "p" then
        let html := process_paragraph (Node.elem tag attrs cls children) prefs
        if pyStrip html = "" then [] else ["<p>" ++ html ++ "</p>"]
      else if tag = "h2" || tag = "h3" || tag = "h4" || tag = "h5" || tag = "h6" then
        headingLine tag (NodeList.getTextL children)
      else if tag = "ul" then
        process_list (Node.elem tag attrs cls children) false prefs
      else if tag = "ol" then
        process_list (Node.elem tag attrs cls children) true prefs
      else if tag = "dl" then dlLines children prefs
      else if tag = "blockquote" then
        let txt := clean_text (NodeList.getTextL children)
        if pyStrip txt = "" then []
        else ["<blockquote>" ++ escapeS txt ++ "</blockquote>"]
      else if tag = "div" then
        if cls.contains "mw-heading" then headingChildren children
        else processChildren children prefs
      else if tag = "section" then processChildren children prefs
      else []
end

/-- `process_content` from httpedia.py. -/
def process_content (content : Node) (prefs : String) : String :=
  String.intercalate "\n" (process_element content prefs)

/-! ## Image Extractor (httpedia.py 281-348) -/

/-- the character class of `r'^[a-zA-Z0-9/_.-]+$'`. -/
def allowSetChar (c : Char) : Bool :=
  c.isAlpha || c.isDigit || c == '/' || c == '_' || c == '.' || c == '-'

/-- `re.match(r'^[a-zA-Z0-9/_.-]+$', s)` succeeds: at least one character,
all from the class — except that Python's `$` also matches just before a
single trailing newline. -/
def pyAllowMatch (l : List Char) : Bool :=
  (!l.isEmpty && l.all allowSetChar) ||
  (l.getLast? == some '\n' && !l.dropLast.isEmpty && l.dropLast.all allowSetChar)

/-- `str.split(sep)` for a non-empty literal separator: left-to-right
non-overlapping scan. -/
def splitSub (sep : List Char) : List Char → List (List Char)
  | [] => [[]]
  | c :: cs =>
      if sep.isPrefixOf (c :: cs) then
        [] :: splitSub sep (List.drop (sep.length - 1) cs)
      else
        match splitSub sep cs with
        | [] => [[c]]
        | p :: ps => (c :: p) :: ps
termination_by l => l.length
decreasing_by
  · simp [List.length_drop]; omega
  · simp

/-- Python `s.split(sep)[-1]`. -/
def afterLastSplit (sep l : List Char) : List Char := (splitSub sep l).getLastD []

/-- the allow-set / traversal validation tail of `extract_image_path`. -/
def extractTail (pre : String) (imgPath : List Char) : Option (String × String) :=
  if !pyAllowMatch imgPath || hasLit "..".data imgPath then none
  else some (pre, String.mk imgPath)

/-- `extract_image_path` from httpedia.py; `none` models the
`(None, None)` rejection. -/
def extract_image_path (src : String) : Option (String × String) :=
  if !hasLit "upload.wikimedia.org".data src.data then none
  else if hasLit "/commons/".data src.data then
    extractTail "" (afterLastSplit "/commons/".data src.data)
  else if hasLit "/en/".data src.data then
    extractTail "en/" (afterLastSplit "/en/".data src.data)
  else none

/-- the `if height and int(height) < 50` half of the size filter. -/
def heightReject (height : String) : Bool :=
  if height ≠ "" then
    match pyInt height with
    | none => false
    | some h => decide (h < 50)
  else false

/-- the `try` block of the size filter: a `ValueError` raised while
parsing the width skips the height check too. -/
def sizeReject (width height : String) : Bool :=
  if width ≠ "" then
    match pyInt width with
    | none => false
    | some w => if w < 50 then true else heightReject height
  else heightReject height

/-- does a node match bs4 `find_all('img', src=True)`? -/
def isImgWithSrc (n : Node) : Bool :=
  n.name == some "img" && (n.get "src").isSome

/-- the `<img>` HTML emitted for one accepted image.  When the `alt`
attribute is absent the source's default is `escape(title_text)`, and
`escape` of an already-escaped `Markup` is the identity, so each branch is
escaped exactly once. -/
def imgRefHtml (n : Node) (title full : String) : String :=
  let alt := match n.get "alt" with
             | some a => escapeS a
             | none => escapeS title
  "<img src=\"/img/" ++ full ++ "\" alt=\"" ++ alt ++ "\">"

/-- the `for img_tag in content.find_all('img', src=True)` loop of
`extract_article_images`.  Each accepted image is recorded as
(resolved full path, emitted HTML); the source keeps only the HTML
string, the path component is a ghost field used by the theorems. -/
def collectImages (limit : Nat) (title : String) :
    List Node → Nat → List String → List (String × String)
  | [], _, _ => []
  | tag :: rest, count, seen =>
      if limit ≤ count then []
      else
        match extract_image_path (tag.getD "src" "") with
        | none => collectImages limit title rest count seen
        | some (pre, path) =>
            let full := pre ++ path
            if seen.contains full then collectImages limit title rest count seen
            else
              -- `seen_paths.add(full_path)` happens before the size filter
              let seen1 := full :: seen
              if sizeReject (tag.getD "width" "") (tag.getD "height" "") then
                collectImages limit title rest count seen1
              else
                (full, imgRefHtml tag title full) ::
                  collectImages limit title rest (count + 1) seen1

def MAX_IMAGES : Nat := 10

/-- `extract_article_images` from httpedia.py: returns
`(hero_html, gallery_html)`. -/
def extract_article_images (content : Node) (title_text mode : String)
    (max_images : Nat) : String × String :=
  if mode = "0" then ("", "")
  else
    let limit := if mode = "1" then 1 else max_images
    let images := (collectImages limit title_text
        (content.findAll isImgWithSrc) 0 []).map (fun x => x.2)
    match images with
    | [] => ("", "")
    | first :: others =>
        let hero := "<center>" ++ first ++ "</center><br>"
        let gallery :=
          if others = [] then ""
          else "<h2>More Images</h2><br><br>" ++ String.intercalate " " others
        (hero, gallery)

/-- does the first image tag whose `src` resolves to path `p` fail the
size filter (vacuously true when no tag resolves to `p`)? -/
def firstOccRejected (p : String) : List Node → Bool
  | [] => true
  | tag :: rest =>
      match extract_image_path (tag.getD "src" "") with
      | none => firstOccRejected p rest
      | some (pre, path) =>
          if pre ++ path = p then
            sizeReject (tag.getD "width" "") (tag.getD "height" "")
          else firstOccRejected p rest

/-! ## The image proxy route (httpedia.py 644-669) -/

/-- the decision `proxy_image` takes before any upstream activity. -/
inductive ProxyOutcome where
  | placeholder
  | badRequest
  | fetchUpstream (url : String)
deriving DecidableEq

/-- `proxy_image` from httpedia.py, up to the hand-off to
`fetch_and_convert_image`: in image mode `'0'` a 1×1 GIF placeholder is
returned before any validation; otherwise the path is validated and a
400 returned on failure. -/
def proxy_image (imgMode : String) (image_path : String) : ProxyOutcome :=
  if imgMode = "0" then .placeholder
  else if !pyAllowMatch image_path.data then .badRequest
  else if hasLit "..".data image_path.data then .badRequest
  else if 500 < image_path.length then .badRequest
  else if "en/".data.isPrefixOf image_path.data then
    .fetchUpstream ("https://upload.wikimedia.org/wikipedia/" ++ image_path)
  else
    .fetchUpstream ("https://upload.wikimedia.org/wikipedia/commons/" ++ image_path)

/-! ## Content-root selection (httpedia.py 598-601) -/

def isParserOutput (n : Node) : Bool :=
  n.name == some "div" && (n.cls).contains "mw-parser-output"

/-- Python `max(xs, key=key)` over a non-empty list `x :: xs`: the first
element is replaced only by a strictly larger one, so the first maximum
wins ties. -/
def pyMaxBy (key : Node → Nat) (x : Node) (xs : List Node) : Node :=
  xs.foldl (fun acc y => if key acc < key y then y else acc) x

/-- lines 598-601 of httpedia.py: choose the `mw-parser-output` div with
the most direct children; `none` models the `render_error('Could not
parse article')` page, which also fires when the chosen div has no
children (`if not content` — a bs4 tag with no children is falsy). -/
def wikiContent (soup : Node) : Option Node :=
  match soup.findAll isParserOutput with
  | [] => none
  | x :: xs =>
      let content := pyMaxBy Node.childCount x xs
      if content.childCount = 0 then none else some content

/-! ## Image Cache & Transcoder (`fetch_and_convert_image`, httpedia.py 733-784) -/

/-- one `requests.get` response (already `raise_for_status`-relevant data):
`ok` is "status < 400", `contentLength` the raw header value, `body` the
received bytes. -/
structure FetchResult where
  ok : Bool
  contentLength : Option String
  body : List Nat

/-- an abstract PIL image. -/
structure PILImage where
  mode : String
  width : Nat
  height : Nat
  content : Nat
deriving DecidableEq

/-- External capabilities of `fetch_and_convert_image`: the md5 digest,
the network, PIL decode/convert/resize/encode, and whether the cache file
reads/writes succeed (`open` can raise; both exceptions are swallowed by
the source). `resize` stands for lines 764-766 (LANCZOS downscale to
`max_width` with proportional height). -/
structure ImgEnv where
  debug : Bool
  digest : String → String
  fetch : String → Option FetchResult
  decodeImg : List Nat → Option PILImage
  convert : PILImage → String → PILImage
  resize : PILImage → Nat → PILImage
  encodeGif : PILImage → Option (List Nat)
  readOk : Bool
  writeOk : Bool

/-- the maximum accepted image payload: 5 MiB. -/
def MAX_IMG_BYTES : Nat := 5 * 1024 * 1024

/-- the on-disk cache, as a key → bytes store (newest entry first). -/
def cacheLookup (cache : List (String × List Nat)) (k : String) : Option (List Nat) :=
  (cache.find? (fun e => e.1 == k)).map (fun e => e.2)

/-- the verdict of the `Content-Length` fast rejection
(`if content_length and int(content_length) > 5*1024*1024`): a
non-numeric header raises `ValueError`, caught by the outer handler. -/
inductive LenCheck where
  | isOver
  | parseError
  | fine
deriving DecidableEq

def declaredLenCheck : Option String → LenCheck
  | none => .fine
  | some h =>
      if h = "" then .fine
      else match pyInt h with
           | none => .parseError
           | some n => if (MAX_IMG_BYTES : Int) < n then .isOver else .fine

/-- observable outcome of one `fetch_and_convert_image` call: the returned
value (`none` = the "not available" signal), how many upstream GETs and
`Image.open` calls were issued, and the cache afterwards. -/
structure ConvResult where
  result : Option (List Nat)
  fetches : Nat
  decodes : Nat
  cacheAfter : List (String × List Nat)

/-- `fetch_and_convert_image` from httpedia.py over explicit capabilities:
cache probe keyed by `md5(url) + ".gif"`, size-guarded download, decode,
mode normalisation, optional downscale, GIF encode, cache write.  Every
failure path of the source's `try`/`except` yields `result = none`. -/
def fetch_and_convert_image (env : ImgEnv) (cache : List (String × List Nat))
    (image_url : String) (max_width : Nat) : ConvResult :=
  let cache_key := env.digest image_url ++ ".gif"
  let use_cache := !env.debug
  match (if use_cache && env.readOk then cacheLookup cache cache_key else none) with
  | some data => { result := some data, fetches := 0, decodes := 0, cacheAfter := cache }
  | none =>
    match env.fetch image_url with
    | none => { result := none, fetches := 1, decodes := 0, cacheAfter := cache }
    | some resp =>
      if !resp.ok then
        { result := none, fetches := 1, decodes := 0, cacheAfter := cache }
      else match declaredLenCheck resp.contentLength with
      | .isOver => { result := none, fetches := 1, decodes := 0, cacheAfter := cache }
      | .parseError => { result := none, fetches := 1, decodes := 0, cacheAfter := cache }
      | .fine =>
        if MAX_IMG_BYTES < resp.body.length then
          { result := none, fetches := 1, decodes := 0, cacheAfter := cache }
        else match env.decodeImg resp.body with
        | none => { result := none, fetches := 1, decodes := 1, cacheAfter := cache }
        | some img0 =>
          let img1 := if img0.mode = "RGBA" || img0.mode = "P"
                      then env.convert img0 "RGB" else img0
          let img2 := if max_width < img1.width then env.resize img1 max_width else img1
          match env.encodeGif img2 with
          | none => { result := none, fetches := 1, decodes := 1, cacheAfter := cache }
          | some gif =>
            let cache1 := if use_cache && env.writeOk
                          then (cache_key, gif) :: cache else cache
            { result := some gif, fetches := 1, decodes := 1, cacheAfter := cache1 }

/-! ## Concrete fixtures used by witnesses and counterexamples -/

/-- sibling-list literal helper. -/
def nodesOf : List Node → NodeList
  | [] => .nil
  | n :: r => .cons n (nodesOf r)

/-- the spec's example paragraph:
`<p>See <a href="/wiki/Computer">Computer</a> and
<a href="https://example.com">here</a>.[1]</p>` -/
def exampleParagraph : Node := Node.elem "p" [] [] (nodesOf [
  Node.text "See ",
  Node.elem "a" [("href", "/wiki/Computer")] [] (nodesOf [Node.text "Computer"]),
  Node.text " and ",
  Node.elem "a" [("href", "https://example.com")] [] (nodesOf [Node.text "here"]),
  Node.text ".[1]"])

/-- a content root holding only the example paragraph. -/
def exampleContent : Node := Node.elem "div" [] ["mw-parser-output"]
  (nodesOf [exampleParagraph])

/-- `<p><b>x</b> y</p>`: a paragraph with a bold element. -/
def boldParagraph : Node := Node.elem "p" [] [] (nodesOf [
  Node.elem "b" [] [] (nodesOf [Node.text "x"]),
  Node.text " y"])

/-- a content root whose blockquote text splices a citation marker:
`<div><blockquote>[[1]2]</blockquote></div>` -/
def spliceContent : Node := Node.elem "div" [] [] (nodesOf [
  Node.elem "blockquote" [] [] (nodesOf [Node.text "[[1]2]"])])

/-- an image tag with a non-numeric width and a sub-threshold height. -/
def oddSizeImg : Node := Node.elem "img"
  [("src", "https://upload.wikimedia.org/wikipedia/commons/thumb/x.jpg"),
   ("width", "abc"), ("height", "10")] [] .nil

/-- a content root holding `oddSizeImg` twice (a duplicate occurrence). -/
def oddSizeContent : Node := Node.elem "div" [] []
  (nodesOf [oddSizeImg, oddSizeImg])

/-- a soup with two candidate content containers: the first has one
child, the second two children (the denser one must win). -/
def twoRootSoup : Node := Node.elem "html" [] [] (nodesOf [
  Node.elem "div" [] ["mw-parser-output"] (nodesOf [Node.elem "p" [] [] .nil]),
  Node.elem "div" [] ["mw-parser-output"]
    (nodesOf [Node.elem "p" [] [] .nil, Node.elem "p" [] [] .nil])])

/-- a deterministic, always-succeeding capability environment for the
transcoder witnesses. -/
def happyEnv : ImgEnv where
  debug := false
  digest := fun _ => "k"
  fetch := fun _ => some { ok := true, contentLength := some "3", body := [7, 8, 9] }
  decodeImg := fun _ => some { mode := "P", width := 300, height := 40, content := 1 }
  convert := fun img m => { img with mode := m, content := img.content + 1 }
  resize := fun img w => { img with width := w, content := img.content + 2 }
  encodeGif := fun img => some [1, 2, img.content]
  readOk := true
  writeOk := true

/-- `happyEnv` with an oversize declared Content-Length. -/
def oversizeHeaderEnv : ImgEnv :=
  { happyEnv with
    fetch := fun _ => some { ok := true, contentLength := some "5242881", body := [7] } }

/-- `happyEnv` with a lying (absent) header and an oversize body. -/
def oversizeBodyEnv : ImgEnv :=
  { happyEnv with
    fetch := fun _ => some { ok := true, contentLength := none,
                             body := List.replicate (5 * 1024 * 1024 + 1) 0 } }

/-- `happyEnv` with a failing network. -/
def downNetworkEnv : ImgEnv := { happyEnv with fetch := fun _ => none }

/-- `happyEnv` with an undecodable payload. -/
def badImageEnv : ImgEnv := { happyEnv with decodeImg := fun _ => none }

/-- `happyEnv` with a failing GIF encoder. -/
def badEncodeEnv : ImgEnv := { happyEnv with encodeGif := fun _ => none }

/-- the denser of the two candidate containers in `twoRootSoup`. -/
def denseRoot : Node := Node.elem "div" [] ["mw-parser-output"]
  (nodesOf [Node.elem "p" [] [] .nil, Node.elem "p" [] [] .nil])

/-- an image tag whose first occurrence is size-rejected (width 30). -/
def smallImg : Node := Node.elem "img"
  [("src", "https://upload.wikimedia.org/wikipedia/commons/thumb/x.jpg"),
   ("width", "30")] [] .nil

/-- the same path again, now without size attributes. -/
def retryImg : Node := Node.elem "img"
  [("src", "https://upload.wikimedia.org/wikipedia/commons/thumb/x.jpg")] [] .nil

/-- Specification-side content-root selector, written from the spec's
words: the first candidate attaining the maximal direct-child count. -/
def specFirstMax (l : List Node) : Option Node :=
  l.find? (fun n => (l.map Node.childCount).foldr max 0 ≤ n.childCount)

/-- Shape of the two literal citation patterns: an opening bracket, a
bracket-free body, a closing bracket. -/
def BalancedPat (pat body : List Char) : Prop :=
  pat = '[' :: (body ++ [']']) ∧ ∀ c ∈ body, c ≠ '[' ∧ c ≠ ']'

/-! ## Generic scanning lemmas -/

theorem isPrefixOfIffPre {l1 l2 : List Char} :
    l1.isPrefixOf l2 = true ↔ l1 <+: l2 :=
  List.isPrefixOf_iff_prefix

theorem hasLit_iff_seg {pat l : List Char} : hasLit pat l = true ↔ pat <:+: l := by
  induction l with
  | nil =>
      rw [hasLit]
      simp only [List.isEmpty_iff, List.infix_nil]
  | cons c cs ih =>
      rw [hasLit]
      simp only [Bool.or_eq_true]
      constructor
      · rintro (h | h)
        · exact (isPrefixOfIffPre.mp h).isInfix
        · exact (ih.mp h).trans (List.suffix_cons c cs).isInfix
      · rintro ⟨u, v, huv⟩
        cases u with
        | nil =>
            left
            rw [isPrefixOfIffPre]
            exact ⟨v, by simpa using huv⟩
        | cons a u =>
            right
            refine ih.mpr ⟨u, v, ?_⟩
            have : a = c := by simpa using congrArg (fun t => t.head?) huv
            simpa [this] using congrArg (fun t => t.tail) huv

theorem hasLit_of_seg {pat t l : List Char} (h : hasLit pat t = true)
    (ht : t <:+: l) : hasLit pat l = true :=
  hasLit_iff_seg.mpr ((hasLit_iff_seg.mp h).trans ht)

theorem hasLit_append_left {pat t : List Char} (u : List Char)
    (h : hasLit pat t = true) : hasLit pat (u ++ t) = true :=
  hasLit_of_seg h (List.suffix_append u t).isInfix

theorem hasLit_of_isPrefixOf {pat l : List Char} (h : pat.isPrefixOf l = true) :
    hasLit pat l = true :=
  hasLit_iff_seg.mpr (isPrefixOfIffPre.mp h).isInfix

theorem takeWhile_digits {ds r : List Char}
    (h : ∀ c ∈ ds, Char.isDigit c = true) :
    (ds ++ ']' :: r).takeWhile Char.isDigit = ds ∧
    (ds ++ ']' :: r).dropWhile Char.isDigit = ']' :: r := by
  induction ds with
  | nil => simp [List.takeWhile_cons, List.dropWhile_cons]
  | cons d ds ih =>
      have hd : Char.isDigit d = true := h d (by simp)
      have hrest : ∀ c ∈ ds, Char.isDigit c = true := fun c hc => h c (by simp [hc])
      rcases ih hrest with ⟨h1, h2⟩
      constructor
      · simpa [List.takeWhile_cons, hd] using h1
      · simpa [List.dropWhile_cons, hd] using h2

theorem digMatch_eq_some_iff {t r : List Char} :
    digMatch t = some r ↔
      ∃ ds, t = ds ++ ']' :: r ∧ ds ≠ [] ∧ ∀ c ∈ ds, Char.isDigit c = true := by
  constructor
  · intro h
    unfold digMatch at h
    split at h
    · rename_i hcond
      cases h
      refine ⟨t.takeWhile Char.isDigit, ?_, hcond.1, fun c hc => List.mem_takeWhile_imp hc⟩
      cases hdw : t.dropWhile Char.isDigit with
      | nil => rw [hdw] at hcond; simp at hcond
      | cons a as =>
          have ha : a = ']' := by
            have := hcond.2
            rw [hdw] at this
            simpa using this
          subst ha
          have hsplit : t = t.takeWhile Char.isDigit ++ (']' :: as) := by
            conv_lhs => rw [← List.takeWhile_append_dropWhile (p := Char.isDigit) (l := t)]
            rw [hdw]
          simpa using hsplit
    · cases h
  · rintro ⟨ds, rfl, hne, hds⟩
    rcases takeWhile_digits (r := r) hds with ⟨h1, h2⟩
    unfold digMatch
    rw [h1, h2]
    simp [hne]

theorem hasDig_iff_decomp {l : List Char} :
    hasDig l = true ↔
      ∃ u ds v, l = u ++ '[' :: (ds ++ ']' :: v) ∧ ds ≠ [] ∧
        ∀ c ∈ ds, Char.isDigit c = true := by
  induction l with
  | nil =>
      rw [hasDig]
      simp
  | cons c cs ih =>
      rw [hasDig]
      simp only [Bool.or_eq_true, Bool.and_eq_true, beq_iff_eq]
      constructor
      · rintro (⟨rfl, hm⟩ | h)
        · rcases Option.isSome_iff_exists.mp hm with ⟨r, hr⟩
          rcases digMatch_eq_some_iff.mp hr with ⟨ds, rfl, hne, hds⟩
          exact ⟨[], ds, r, rfl, hne, hds⟩
        · rcases ih.mp h with ⟨u, ds, v, rfl, hne, hds⟩
          exact ⟨c :: u, ds, v, rfl, hne, hds⟩
      · rintro ⟨u, ds, v, huv, hne, hds⟩
        cases u with
        | nil =>
            left
            have hc : c = '[' := by simpa using congrArg (fun t => t.head?) huv
            have hcs : cs = ds ++ ']' :: v := by
              simpa using congrArg (fun t => t.tail) huv
            refine ⟨hc, ?_⟩
            rw [hcs]
            exact Option.isSome_iff_exists.mpr ⟨v, digMatch_eq_some_iff.mpr ⟨ds, rfl, hne, hds⟩⟩
        | cons a u =>
            right
            refine ih.mpr ⟨u, ds, v, ?_, hne, hds⟩
            simpa using congrArg (fun t => t.tail) huv

theorem hasDig_of_seg {t l : List Char} (h : hasDig t = true)
    (ht : t <:+: l) : hasDig l = true := by
  rcases hasDig_iff_decomp.mp h with ⟨u, ds, v, rfl, hne, hds⟩
  rcases ht with ⟨x, y, rfl⟩
  exact hasDig_iff_decomp.mpr
    ⟨x ++ u, ds, v ++ y, by simp, hne, hds⟩

theorem hasDig_append_left {t : List Char} (u : List Char)
    (h : hasDig t = true) : hasDig (u ++ t) = true :=
  hasDig_of_seg h (List.suffix_append u t).isInfix

theorem pyStripL_seg (l : List Char) : pyStripL l <:+: l := by
  have h1 : pyStripL l = (l.dropWhile isPySpace).rdropWhile isPySpace := rfl
  have h2 : (l.dropWhile isPySpace).rdropWhile isPySpace <+: l.dropWhile isPySpace :=
    List.rdropWhile_prefix isPySpace (l.dropWhile isPySpace)
  rw [h1]
  exact h2.isInfix.trans (List.dropWhile_suffix isPySpace).isInfix

theorem digit_ne_bracket {c : Char} (h : Char.isDigit c = true) :
    c ≠ '[' ∧ c ≠ ']' := by
  constructor <;> rintro rfl <;> exact absurd h (by decide)

theorem isPySpace_ne_bracket {c : Char} (h : isPySpace c = true) :
    c ≠ '[' ∧ c ≠ ']' := by
  constructor <;> rintro rfl <;> exact absurd h (by decide)

theorem noNestAux_free_append {u : List Char}
    (hu : ∀ c ∈ u, c ≠ '[' ∧ c ≠ ']') :
    ∀ (b : Bool) (t : List Char), noNestAux b (u ++ t) = noNestAux b t := by
  induction u with
  | nil => intro b t; rfl
  | cons c cs ih =>
      intro b t
      have hc := hu c (by simp)
      have hrest : ∀ x ∈ cs, x ≠ '[' ∧ x ≠ ']' := fun x hx => hu x (by simp [hx])
      rw [List.cons_append, noNestAux]
      rw [if_neg hc.1, if_neg hc.2]
      exact ih hrest b t

theorem noNestAux_of_true {l : List Char} :
    ∀ b, noNestAux true l = true → noNestAux b l = true := by
  induction l with
  | nil => intro b _; rfl
  | cons c cs ih =>
      intro b h
      rw [noNestAux] at h ⊢
      by_cases h1 : c = '['
      · rw [if_pos h1] at h
        simp at h
      · by_cases h2 : c = ']'
        · rw [if_neg h1, if_pos h2] at h ⊢
          exact h
        · rw [if_neg h1, if_neg h2] at h ⊢
          exact ih b h

theorem noNestAux_open_step {body rest : List Char} {b : Bool}
    (hfree : ∀ c ∈ body, c ≠ '[' ∧ c ≠ ']')
    (h : noNestAux b ('[' :: (body ++ ']' :: rest)) = true) :
    b = false ∧ noNestAux false rest = true := by
  rw [noNestAux, if_pos rfl] at h
  have h' : (!b) = true ∧ noNestAux true (body ++ ']' :: rest) = true := by
    simpa using h
  rcases h' with ⟨hb, hrest⟩
  refine ⟨by simpa using hb, ?_⟩
  rw [noNestAux_free_append hfree] at hrest
  rw [noNestAux, if_neg (by decide), if_pos rfl] at hrest
  exact hrest

theorem prefix_drop_decomp {pat cs : List Char} {c : Char}
    (hne : pat ≠ []) (h : pat.isPrefixOf (c :: cs) = true) :
    c :: cs = pat ++ List.drop (pat.length - 1) cs := by
  rcases isPrefixOfIffPre.mp h with ⟨t, ht⟩
  have hdrop : List.drop pat.length (c :: cs) = t := by
    rw [← ht, List.drop_left]
  cases hp : pat with
  | nil => exact absurd hp hne
  | cons p ps =>
      rw [hp] at hdrop
      rw [List.length_cons, List.drop_succ_cons] at hdrop
      rw [← ht, hp]
      simp [hdrop]

theorem isPrefixOf_cons_same {t X : List Char} {c : Char} :
    ((c :: t).isPrefixOf (c :: X)) = t.isPrefixOf X := by
  simp [List.isPrefixOf]

theorem isPrefixOf_cons_neq {t X : List Char} {a c : Char} (hc : c ≠ a) :
    ((a :: t).isPrefixOf (c :: X)) = false := by
  simp [List.isPrefixOf]
  intro h
  exact absurd h.symm hc

theorem removeLit_nil (pat : List Char) : removeLit pat [] = [] := by
  rw [removeLit]

theorem removeLit_cons_pos {pat cs : List Char} {c : Char}
    (h : pat.isPrefixOf (c :: cs) = true) :
    removeLit pat (c :: cs) = removeLit pat (List.drop (pat.length - 1) cs) := by
  rw [removeLit, if_pos h]

theorem removeLit_cons_neg {pat cs : List Char} {c : Char}
    (h : pat.isPrefixOf (c :: cs) = false) :
    removeLit pat (c :: cs) = c :: removeLit pat cs := by
  rw [removeLit, if_neg (by simp [h])]

theorem removeDig_nil : removeDig [] = [] := by rw [removeDig]

theorem removeDig_cons_not {cs : List Char} {c : Char} (h : c ≠ '[') :
    removeDig (c :: cs) = c :: removeDig cs := by
  rw [removeDig, if_neg h]

theorem removeDig_cons_open_some {cs rest : List Char} (h : digMatch cs = some rest) :
    removeDig ('[' :: cs) = removeDig rest := by
  rw [removeDig, if_pos rfl, h]

theorem removeDig_cons_open_none {cs : List Char} (h : digMatch cs = none) :
    removeDig ('[' :: cs) = '[' :: removeDig cs := by
  rw [removeDig, if_pos rfl, h]

theorem removeLit_open_decomp {pat body : List Char} (hp : BalancedPat pat body)
    (l : List Char) :
    noNestAux true l = true →
      ∃ u v, l = u ++ v ∧ removeLit pat l = u ++ removeLit pat v ∧
        (∀ c ∈ u, c ≠ '[' ∧ c ≠ ']') ∧ (v = [] ∨ ∃ v', v = ']' :: v') := by
  induction l using removeLit.induct pat with
  | case1 =>
      intro _
      exact ⟨[], [], by simp, by simp, by simp, Or.inl rfl⟩
  | case2 c cs h ih =>
      intro hn
      exfalso
      rcases hp with ⟨hpe, _⟩
      rcases isPrefixOfIffPre.mp h with ⟨t, ht⟩
      rw [hpe] at ht
      have hc : c = '[' := by
        have := congrArg (fun q => q.head?) ht
        simpa using this.symm
      subst hc
      rw [noNestAux, if_pos rfl] at hn
      simp at hn
  | case3 c cs h ih =>
      intro hn
      have hpre : pat.isPrefixOf (c :: cs) = false := by
        cases hb : pat.isPrefixOf (c :: cs)
        · rfl
        · exact absurd hb h
      by_cases hc : c = '['
      · exfalso
        subst hc
        rw [noNestAux, if_pos rfl] at hn
        simp at hn
      · by_cases hc2 : c = ']'
        · subst hc2
          exact ⟨[], ']' :: cs, by simp, by simp, by simp, Or.inr ⟨cs, rfl⟩⟩
        · have hn' : noNestAux true cs = true := by
            rw [noNestAux, if_neg hc, if_neg hc2] at hn
            exact hn
          rcases ih hn' with ⟨u, v, h1, h2, h3, h4⟩
          refine ⟨c :: u, v, by simp [h1], ?_, ?_, h4⟩
          · rw [removeLit_cons_neg hpre, h2]
            rfl
          · intro x hx
            rcases List.mem_cons.mp hx with hx | hx
            · exact hx ▸ ⟨hc, hc2⟩
            · exact h3 x hx

theorem removeDig_open_decomp (l : List Char) :
    noNestAux true l = true →
      ∃ u v, l = u ++ v ∧ removeDig l = u ++ removeDig v ∧
        (∀ c ∈ u, c ≠ '[' ∧ c ≠ ']') ∧ (v = [] ∨ ∃ v', v = ']' :: v') := by
  induction l using removeDig.induct with
  | case1 =>
      intro _
      exact ⟨[], [], by simp, by simp [removeDig_nil], by simp, Or.inl rfl⟩
  | case2 cs rest h ih =>
      intro hn
      exfalso
      rw [noNestAux, if_pos rfl] at hn
      simp at hn
  | case3 cs h ih =>
      intro hn
      exfalso
      rw [noNestAux, if_pos rfl] at hn
      simp at hn
  | case4 c cs hc ih =>
      intro hn
      by_cases hc2 : c = ']'
      · subst hc2
        exact ⟨[], ']' :: cs, by simp, by simp, by simp, Or.inr ⟨cs, rfl⟩⟩
      · have hn' : noNestAux true cs = true := by
          rw [noNestAux, if_neg hc, if_neg hc2] at hn
          exact hn
        rcases ih hn' with ⟨u, v, h1, h2, h3, h4⟩
        refine ⟨c :: u, v, by simp [h1], ?_, ?_, h4⟩
        · rw [removeDig_cons_not hc, h2]
          rfl
        · intro x hx
          rcases List.mem_cons.mp hx with hx | hx
          · exact hx ▸ ⟨hc, hc2⟩
          · exact h3 x hx

theorem probe_lit_stable :
    ∀ (w u : List Char), (∀ c ∈ w, c ≠ '[' ∧ c ≠ ']') →
      (∀ c ∈ u, c ≠ '[' ∧ c ≠ ']') →
      ∀ X Y : List Char,
        ((w ++ [']']).isPrefixOf (u ++ ']' :: X))
          = ((w ++ [']']).isPrefixOf (u ++ ']' :: Y)) := by
  intro w
  induction w with
  | nil =>
      intro u _ hu X Y
      cases u with
      | nil => simp [List.isPrefixOf]
      | cons c u' =>
          have hc := hu c (by simp)
          rw [List.nil_append, List.cons_append, List.cons_append,
            isPrefixOf_cons_neq (fun h => hc.2 h), isPrefixOf_cons_neq (fun h => hc.2 h)]
  | cons a w' ih =>
      intro u hw hu X Y
      have ha := hw a (by simp)
      have hw' : ∀ c ∈ w', c ≠ '[' ∧ c ≠ ']' := fun c hc => hw c (by simp [hc])
      cases u with
      | nil =>
          rw [List.cons_append, List.nil_append, List.nil_append,
            isPrefixOf_cons_neq (fun h => (ha.2 h.symm).elim),
            isPrefixOf_cons_neq (fun h => (ha.2 h.symm).elim)]
      | cons c u' =>
          have hu' : ∀ x ∈ u', x ≠ '[' ∧ x ≠ ']' := fun x hx => hu x (by simp [hx])
          by_cases hac : a = c
          · subst hac
            rw [List.cons_append, List.cons_append, List.cons_append,
              isPrefixOf_cons_same, isPrefixOf_cons_same]
            exact ih u' hw' hu' X Y
          · rw [List.cons_append, List.cons_append, List.cons_append,
              isPrefixOf_cons_neq (fun h => hac (h.symm)),
              isPrefixOf_cons_neq (fun h => hac (h.symm))]

theorem takeWhile_append_of_all {p : Char → Bool} {ds : List Char}
    (h : ∀ c ∈ ds, p c = true) (t : List Char) :
    (ds ++ t).takeWhile p = ds ++ t.takeWhile p ∧
    (ds ++ t).dropWhile p = t.dropWhile p := by
  induction ds with
  | nil => simp
  | cons d ds ih =>
      have hd : p d = true := h d (by simp)
      have hrest : ∀ c ∈ ds, p c = true := fun c hc => h c (by simp [hc])
      rcases ih hrest with ⟨h1, h2⟩
      constructor
      · simp [List.takeWhile_cons, hd, h1]
      · simp [List.dropWhile_cons, hd, h2]

theorem dropWhile_append_of_exists {p : Char → Bool} {u : List Char}
    (h : u.all p = false) (t : List Char) :
    (u ++ t).takeWhile p = u.takeWhile p ∧
    (u ++ t).dropWhile p = u.dropWhile p ++ t ∧
    ∃ c0 t0, u.dropWhile p = c0 :: t0 ∧ p c0 = false ∧ c0 ∈ u := by
  induction u with
  | nil => simp at h
  | cons d ds ih =>
      cases hd : p d with
      | true =>
          have hds : ds.all p = false := by
            rw [List.all_cons, hd] at h
            simpa using h
          rcases ih hds with ⟨h1, h2, c0, t0, h3, h4, h5⟩
          refine ⟨?_, ?_, c0, t0, ?_, h4, by simp [h5]⟩
          · simp [List.takeWhile_cons, hd, h1]
          · simp [List.dropWhile_cons, hd, h2]
          · simp [List.dropWhile_cons, hd, h3]
      | false =>
          refine ⟨?_, ?_, d, ds, ?_, hd, by simp⟩
          · simp [List.takeWhile_cons, hd]
          · simp [List.dropWhile_cons, hd]
          · simp [List.dropWhile_cons, hd]

theorem probe_dig_stable {u : List Char} (hu : ∀ c ∈ u, c ≠ ']')
    (X Y : List Char) :
    (digMatch (u ++ ']' :: X)).isSome = (digMatch (u ++ ']' :: Y)).isSome := by
  by_cases hall : u.all Char.isDigit
  · have hd : ∀ c ∈ u, Char.isDigit c = true := fun c hc => by
      have := List.all_eq_true.mp hall c hc
      simpa using this
    have hX := takeWhile_append_of_all hd (']' :: X)
    have hY := takeWhile_append_of_all hd (']' :: Y)
    unfold digMatch
    rw [hX.1, hX.2, hY.1, hY.2]
    have htw : (']' :: X).takeWhile Char.isDigit = [] := by
      simp [List.takeWhile_cons]
    have htw' : (']' :: Y).takeWhile Char.isDigit = [] := by
      simp [List.takeWhile_cons]
    have hdw : (']' :: X).dropWhile Char.isDigit = ']' :: X := by
      simp [List.dropWhile_cons]
    have hdw' : (']' :: Y).dropWhile Char.isDigit = ']' :: Y := by
      simp [List.dropWhile_cons]
    rw [htw, htw', hdw, hdw']
    simp
    by_cases hu0 : u = [] <;> simp [hu0]
  · have hall' : u.all Char.isDigit = false := by
      cases hb : u.all Char.isDigit
      · rfl
      · exact absurd hb hall
    rcases dropWhile_append_of_exists hall' (']' :: X) with ⟨_, hX2, c0, t0, h3, h4, h5⟩
    rcases dropWhile_append_of_exists hall' (']' :: Y) with ⟨_, hY2, _, _, _, _, _⟩
    unfold digMatch
    rw [hX2, hY2, h3]
    have hc0 : c0 ≠ ']' := hu c0 h5
    simp [hc0]

theorem probe_lit_removeLit {pat body w : List Char} (hp : BalancedPat pat body)
    (hw : ∀ c ∈ w, c ≠ '[' ∧ c ≠ ']') {l : List Char}
    (hn : noNestAux true l = true) :
    ((w ++ [']']).isPrefixOf (removeLit pat l)) = ((w ++ [']']).isPrefixOf l) := by
  rcases removeLit_open_decomp hp l hn with ⟨u, v, h1, h2, h3, h4⟩
  rcases h4 with rfl | ⟨v', rfl⟩
  · rw [h2, removeLit_nil, List.append_nil]
    rw [h1, List.append_nil]
  · have hv : removeLit pat (']' :: v') = ']' :: removeLit pat v' := by
      rcases hp with ⟨hpe, _⟩
      refine removeLit_cons_neg ?_
      rw [hpe]
      exact isPrefixOf_cons_neq (by decide)
    rw [h2, hv, h1]
    exact probe_lit_stable w u hw h3 (removeLit pat v') v'

theorem probe_dig_removeLit {pat body : List Char} (hp : BalancedPat pat body)
    {l : List Char} (hn : noNestAux true l = true) :
    (digMatch (removeLit pat l)).isSome = (digMatch l).isSome := by
  rcases removeLit_open_decomp hp l hn with ⟨u, v, h1, h2, h3, h4⟩
  rcases h4 with rfl | ⟨v', rfl⟩
  · rw [h2, removeLit_nil, List.append_nil]
    rw [h1, List.append_nil]
  · have hv : removeLit pat (']' :: v') = ']' :: removeLit pat v' := by
      rcases hp with ⟨hpe, _⟩
      refine removeLit_cons_neg ?_
      rw [hpe]
      exact isPrefixOf_cons_neq (by decide)
    rw [h2, hv, h1]
    exact probe_dig_stable (fun c hc => (h3 c hc).2) (removeLit pat v') v'

theorem probe_lit_removeDig {w : List Char}
    (hw : ∀ c ∈ w, c ≠ '[' ∧ c ≠ ']') {l : List Char}
    (hn : noNestAux true l = true) :
    ((w ++ [']']).isPrefixOf (removeDig l)) = ((w ++ [']']).isPrefixOf l) := by
  rcases removeDig_open_decomp l hn with ⟨u, v, h1, h2, h3, h4⟩
  rcases h4 with rfl | ⟨v', rfl⟩
  · rw [h2, removeDig_nil, List.append_nil]
    rw [h1, List.append_nil]
  · rw [h2, removeDig_cons_not (by decide), h1]
    exact probe_lit_stable w u hw h3 (removeDig v') v'

theorem probe_dig_removeDig {l : List Char} (hn : noNestAux true l = true) :
    (digMatch (removeDig l)).isSome = (digMatch l).isSome := by
  rcases removeDig_open_decomp l hn with ⟨u, v, h1, h2, h3, h4⟩
  rcases h4 with rfl | ⟨v', rfl⟩
  · rw [h2, removeDig_nil, List.append_nil]
    rw [h1, List.append_nil]
  · rw [h2, removeDig_cons_not (by decide), h1]
    exact probe_dig_stable (fun c hc => (h3 c hc).2) (removeDig v') v'

theorem noNestAux_cons_open {b : Bool} {cs : List Char}
    (h : noNestAux b ('[' :: cs) = true) :
    b = false ∧ noNestAux true cs = true := by
  rw [noNestAux, if_pos rfl] at h
  have h' : (!b) = true ∧ noNestAux true cs = true := by simpa using h
  exact ⟨by simpa using h'.1, h'.2⟩

theorem noNestAux_cons_close {b : Bool} {cs : List Char}
    (h : noNestAux b (']' :: cs) = true) : noNestAux false cs = true := by
  rw [noNestAux, if_neg (by decide), if_pos rfl] at h
  exact h

theorem noNestAux_cons_other {b : Bool} {c : Char} {cs : List Char}
    (h1 : c ≠ '[') (h2 : c ≠ ']') (h : noNestAux b (c :: cs) = true) :
    noNestAux b cs = true := by
  rw [noNestAux, if_neg h1, if_neg h2] at h
  exact h

/-- the flag bookkeeping for the pattern-match branch of both scanners:
`c :: cs = '[' :: (body ++ ']' :: rest)` under no-nesting gives a closed
flag and no-nesting of the remainder. -/
theorem noNestAux_match_branch {body rest : List Char} {b : Bool}
    (hfree : ∀ c ∈ body, c ≠ '[' ∧ c ≠ ']')
    (h : noNestAux b ('[' :: (body ++ ']' :: rest)) = true) :
    b = false ∧ noNestAux false rest = true :=
  noNestAux_open_step hfree h

theorem removeLit_noNest {pat body : List Char} (hp : BalancedPat pat body)
    (l : List Char) :
    ∀ b, noNestAux b l = true → noNestAux b (removeLit pat l) = true := by
  induction l using removeLit.induct pat with
  | case1 => intro b _; rw [removeLit_nil]; rfl
  | case2 c cs h ih =>
      intro b hn
      rcases hp with ⟨hpe, hfree⟩
      have hdec := prefix_drop_decomp (by rw [hpe]; simp) h
      have hshape : c :: cs = '[' :: (body ++ ']' :: List.drop (pat.length - 1) cs) := by
        rw [hdec, hpe]
        simp
      rw [hshape] at hn
      rcases noNestAux_match_branch hfree hn with ⟨hb, hrest⟩
      subst hb
      rw [removeLit_cons_pos h]
      exact ih false hrest
  | case3 c cs h ih =>
      intro b hn
      have hpre : pat.isPrefixOf (c :: cs) = false := by
        cases hb : pat.isPrefixOf (c :: cs)
        · rfl
        · exact absurd hb h
      rw [removeLit_cons_neg hpre]
      by_cases hc : c = '['
      · subst hc
        rcases noNestAux_cons_open hn with ⟨hb, hcs⟩
        subst hb
        rw [noNestAux, if_pos rfl]
        simp only [Bool.not_false, Bool.true_and]
        exact ih true hcs
      · by_cases hc2 : c = ']'
        · subst hc2
          have hcs := noNestAux_cons_close hn
          rw [noNestAux, if_neg (by decide), if_pos rfl]
          exact ih false hcs
        · have hcs := noNestAux_cons_other hc hc2 hn
          rw [noNestAux, if_neg hc, if_neg hc2]
          exact ih b hcs

theorem removeDig_noNest (l : List Char) :
    ∀ b, noNestAux b l = true → noNestAux b (removeDig l) = true := by
  induction l using removeDig.induct with
  | case1 => intro b _; rw [removeDig_nil]; rfl
  | case2 cs rest h ih =>
      intro b hn
      rcases digMatch_eq_some_iff.mp h with ⟨ds, rfl, hne, hds⟩
      have hfree : ∀ c ∈ ds, c ≠ '[' ∧ c ≠ ']' :=
        fun c hc => digit_ne_bracket (hds c hc)
      rcases noNestAux_match_branch hfree hn with ⟨hb, hrest⟩
      subst hb
      rw [removeDig_cons_open_some h]
      exact ih false hrest
  | case3 cs h ih =>
      intro b hn
      rcases noNestAux_cons_open hn with ⟨hb, hcs⟩
      subst hb
      rw [removeDig_cons_open_none h]
      rw [noNestAux, if_pos rfl]
      simp only [Bool.not_false, Bool.true_and]
      exact ih true hcs
  | case4 c cs hc ih =>
      intro b hn
      rw [removeDig_cons_not hc]
      by_cases hc2 : c = ']'
      · subst hc2
        have hcs := noNestAux_cons_close hn
        rw [noNestAux, if_neg (by decide), if_pos rfl]
        exact ih false hcs
      · have hcs := noNestAux_cons_other hc hc2 hn
        rw [noNestAux, if_neg hc, if_neg hc2]
        exact ih b hcs

theorem removeLit_self_absent {pat body : List Char} (hp : BalancedPat pat body)
    (l : List Char) :
    ∀ b, noNestAux b l = true → hasLit pat (removeLit pat l) = false := by
  induction l using removeLit.induct pat with
  | case1 =>
      intro b _
      rw [removeLit_nil, hasLit]
      rcases hp with ⟨hpe, _⟩
      rw [hpe]
      rfl
  | case2 c cs h ih =>
      intro b hn
      rcases hp with ⟨hpe, hfree⟩
      have hdec := prefix_drop_decomp (by rw [hpe]; simp) h
      have hshape : c :: cs = '[' :: (body ++ ']' :: List.drop (pat.length - 1) cs) := by
        rw [hdec, hpe]
        simp
      rw [hshape] at hn
      rcases noNestAux_match_branch hfree hn with ⟨_, hrest⟩
      rw [removeLit_cons_pos h]
      exact ih false hrest
  | case3 c cs h ih =>
      intro b hn
      have hpre : pat.isPrefixOf (c :: cs) = false := by
        cases hb : pat.isPrefixOf (c :: cs)
        · rfl
        · exact absurd hb h
      rw [removeLit_cons_neg hpre, hasLit]
      by_cases hc : c = '['
      · subst hc
        rcases noNestAux_cons_open hn with ⟨_, hcs⟩
        rcases hp with ⟨hpe, hfree⟩
        have hfirst : pat.isPrefixOf ('[' :: removeLit pat cs) = false := by
          have hstable := probe_lit_removeLit ⟨hpe, hfree⟩ hfree hcs
          have hthis := hpre
          rw [hpe] at hstable hthis ⊢
          rw [isPrefixOf_cons_same, hstable]
          rw [isPrefixOf_cons_same] at hthis
          exact hthis
        rw [hfirst, ih true hcs]
        rfl
      · have hfirst : pat.isPrefixOf (c :: removeLit pat cs) = false := by
          rcases hp with ⟨hpe, _⟩
          rw [hpe]
          exact isPrefixOf_cons_neq hc
        by_cases hc2 : c = ']'
        · subst hc2
          rw [hfirst, ih false (noNestAux_cons_close hn)]
          rfl
        · rw [hfirst, ih b (noNestAux_cons_other hc hc2 hn)]
          rfl

theorem removeDig_self_absent (l : List Char) :
    ∀ b, noNestAux b l = true → hasDig (removeDig l) = false := by
  induction l using removeDig.induct with
  | case1 => intro b _; rw [removeDig_nil, hasDig]
  | case2 cs rest h ih =>
      intro b hn
      rcases digMatch_eq_some_iff.mp h with ⟨ds, rfl, hne, hds⟩
      have hfree : ∀ c ∈ ds, c ≠ '[' ∧ c ≠ ']' :=
        fun c hc => digit_ne_bracket (hds c hc)
      rcases noNestAux_match_branch hfree hn with ⟨_, hrest⟩
      rw [removeDig_cons_open_some h]
      exact ih false hrest
  | case3 cs h ih =>
      intro b hn
      rcases noNestAux_cons_open hn with ⟨_, hcs⟩
      rw [removeDig_cons_open_none h, hasDig]
      have hfirst : (digMatch (removeDig cs)).isSome = false := by
        rw [probe_dig_removeDig hcs, h]
        rfl
      rw [hfirst, ih true hcs]
      rfl
  | case4 c cs hc ih =>
      intro b hn
      rw [removeDig_cons_not hc, hasDig]
      have hcne : (c == '[') = false := by
        cases hb : c == '['
        · rfl
        · exact absurd (by simpa using hb) hc
      rw [hcne]
      by_cases hc2 : c = ']'
      · subst hc2
        rw [ih false (noNestAux_cons_close hn)]
        rfl
      · rw [ih b (noNestAux_cons_other hc hc2 hn)]
        rfl

theorem removeLit_reflect_hasLit {pat body pat2 body2 : List Char}
    (hp : BalancedPat pat body) (hp2 : BalancedPat pat2 body2) (l : List Char) :
    ∀ b, noNestAux b l = true →
      hasLit pat2 (removeLit pat l) = true → hasLit pat2 l = true := by
  induction l using removeLit.induct pat with
  | case1 =>
      intro b _ hm
      rw [removeLit_nil] at hm
      exact hm
  | case2 c cs h ih =>
      intro b hn hm
      rcases hp with ⟨hpe, hfree⟩
      have hdec := prefix_drop_decomp (by rw [hpe]; simp) h
      have hshape : c :: cs = '[' :: (body ++ ']' :: List.drop (pat.length - 1) cs) := by
        rw [hdec, hpe]
        simp
      rw [hshape] at hn
      rcases noNestAux_match_branch hfree hn with ⟨_, hrest⟩
      rw [removeLit_cons_pos h] at hm
      have := ih false hrest hm
      rw [hdec]
      exact hasLit_append_left pat this
  | case3 c cs h ih =>
      intro b hn hm
      have hpre : pat.isPrefixOf (c :: cs) = false := by
        cases hb : pat.isPrefixOf (c :: cs)
        · rfl
        · exact absurd hb h
      rw [removeLit_cons_neg hpre, hasLit] at hm
      rcases Bool.or_eq_true_iff.mp hm with hm1 | hm2
      · by_cases hc : c = '['
        · subst hc
          rcases noNestAux_cons_open hn with ⟨_, hcs⟩
          rcases hp2 with ⟨hpe2, hfree2⟩
          rw [hpe2, isPrefixOf_cons_same] at hm1
          rw [probe_lit_removeLit hp hfree2 hcs] at hm1
          rw [hasLit]
          rw [hpe2, isPrefixOf_cons_same, hm1]
          rfl
        · exfalso
          rcases hp2 with ⟨hpe2, _⟩
          rw [hpe2, isPrefixOf_cons_neq hc] at hm1
          exact Bool.false_ne_true hm1
      · have hrec : hasLit pat2 cs = true := by
          by_cases hc : c = '['
          · subst hc
            rcases noNestAux_cons_open hn with ⟨_, hcs⟩
            exact ih true hcs hm2
          · by_cases hc2 : c = ']'
            · subst hc2
              exact ih false (noNestAux_cons_close hn) hm2
            · exact ih b (noNestAux_cons_other hc hc2 hn) hm2
        rw [hasLit, hrec]
        simp

theorem removeLit_reflect_hasDig {pat body : List Char} (hp : BalancedPat pat body)
    (l : List Char) :
    ∀ b, noNestAux b l = true →
      hasDig (removeLit pat l) = true → hasDig l = true := by
  induction l using removeLit.induct pat with
  | case1 =>
      intro b _ hm
      rw [removeLit_nil] at hm
      exact hm
  | case2 c cs h ih =>
      intro b hn hm
      rcases hp with ⟨hpe, hfree⟩
      have hdec := prefix_drop_decomp (by rw [hpe]; simp) h
      have hshape : c :: cs = '[' :: (body ++ ']' :: List.drop (pat.length - 1) cs) := by
        rw [hdec, hpe]
        simp
      rw [hshape] at hn
      rcases noNestAux_match_branch hfree hn with ⟨_, hrest⟩
      rw [removeLit_cons_pos h] at hm
      have := ih false hrest hm
      rw [hdec]
      exact hasDig_append_left pat this
  | case3 c cs h ih =>
      intro b hn hm
      have hpre : pat.isPrefixOf (c :: cs) = false := by
        cases hb : pat.isPrefixOf (c :: cs)
        · rfl
        · exact absurd hb h
      rw [removeLit_cons_neg hpre, hasDig] at hm
      rcases Bool.or_eq_true_iff.mp hm with hm1 | hm2
      · rcases Bool.and_eq_true_iff.mp hm1 with ⟨hc, hdm⟩
        have hc' : c = '[' := by simpa using hc
        subst hc'
        rcases noNestAux_cons_open hn with ⟨_, hcs⟩
        rw [probe_dig_removeLit hp hcs] at hdm
        rw [hasDig, hdm]
        simp
      · have hrec : hasDig cs = true := by
          by_cases hc : c = '['
          · subst hc
            rcases noNestAux_cons_open hn with ⟨_, hcs⟩
            exact ih true hcs hm2
          · by_cases hc2 : c = ']'
            · subst hc2
              exact ih false (noNestAux_cons_close hn) hm2
            · exact ih b (noNestAux_cons_other hc hc2 hn) hm2
        rw [hasDig, hrec]
        simp

theorem removeDig_reflect_hasLit {pat2 body2 : List Char}
    (hp2 : BalancedPat pat2 body2) (l : List Char) :
    ∀ b, noNestAux b l = true →
      hasLit pat2 (removeDig l) = true → hasLit pat2 l = true := by
  induction l using removeDig.induct with
  | case1 =>
      intro b _ hm
      rw [removeDig_nil] at hm
      exact hm
  | case2 cs rest h ih =>
      intro b hn hm
      rcases digMatch_eq_some_iff.mp h with ⟨ds, rfl, hne, hds⟩
      have hfree : ∀ c ∈ ds, c ≠ '[' ∧ c ≠ ']' :=
        fun c hc => digit_ne_bracket (hds c hc)
      rcases noNestAux_match_branch hfree hn with ⟨_, hrest⟩
      rw [removeDig_cons_open_some h] at hm
      have := ih false hrest hm
      have hsplit : '[' :: (ds ++ ']' :: rest) = ('[' :: (ds ++ [']'])) ++ rest := by
        simp
      rw [hsplit]
      exact hasLit_append_left ('[' :: (ds ++ [']'])) this
  | case3 cs h ih =>
      intro b hn hm
      rcases noNestAux_cons_open hn with ⟨_, hcs⟩
      rw [removeDig_cons_open_none h, hasLit] at hm
      rcases Bool.or_eq_true_iff.mp hm with hm1 | hm2
      · rcases hp2 with ⟨hpe2, hfree2⟩
        rw [hpe2, isPrefixOf_cons_same] at hm1
        rw [probe_lit_removeDig hfree2 hcs] at hm1
        rw [hasLit, hpe2, isPrefixOf_cons_same, hm1]
        rfl
      · have := ih true hcs hm2
        rw [hasLit, this]
        simp
  | case4 c cs hc ih =>
      intro b hn hm
      rw [removeDig_cons_not hc, hasLit] at hm
      rcases Bool.or_eq_true_iff.mp hm with hm1 | hm2
      · by_cases hcb : c = '['
        · exact absurd hcb hc
        · exfalso
          rcases hp2 with ⟨hpe2, _⟩
          rw [hpe2, isPrefixOf_cons_neq hcb] at hm1
          exact Bool.false_ne_true hm1
      · have hrec : hasLit pat2 cs = true := by
          by_cases hc2 : c = ']'
          · subst hc2
            exact ih false (noNestAux_cons_close hn) hm2
          · exact ih b (noNestAux_cons_other hc hc2 hn) hm2
        rw [hasLit, hrec]
        simp

theorem hasLit_pyStripL {pat l : List Char} (h : hasLit pat (pyStripL l) = true) :
    hasLit pat l = true :=
  hasLit_of_seg h (pyStripL_seg l)

theorem hasDig_pyStripL {l : List Char} (h : hasDig (pyStripL l) = true) :
    hasDig l = true :=
  hasDig_of_seg h (pyStripL_seg l)

theorem noNestAux_collapse (l : List Char) :
    ∀ (b flag : Bool), noNestAux b (collapseAux flag l) = noNestAux b l := by
  induction l with
  | nil => intro b flag; rfl
  | cons c cs ih =>
      intro b flag
      rw [collapseAux]
      by_cases hws : isPySpace c = true
      · rw [if_pos hws]
        have hcb := isPySpace_ne_bracket hws
        have hr : noNestAux b (c :: cs) = noNestAux b cs := by
          rw [noNestAux, if_neg hcb.1, if_neg hcb.2]
        rw [hr]
        by_cases hflag : flag = true
        · rw [if_pos hflag]
          exact ih b true
        · rw [if_neg hflag]
          have hsp : noNestAux b (' ' :: collapseAux true cs)
              = noNestAux b (collapseAux true cs) := by
            rw [noNestAux, if_neg (by decide), if_neg (by decide)]
          rw [hsp]
          exact ih b true
      · rw [if_neg hws]
        by_cases hc : c = '['
        · subst hc
          have e1 : noNestAux b ('[' :: collapseAux false cs)
              = (!b && noNestAux true (collapseAux false cs)) := by
            rw [noNestAux, if_pos rfl]
          have e2 : noNestAux b ('[' :: cs) = (!b && noNestAux true cs) := by
            rw [noNestAux, if_pos rfl]
          rw [e1, e2, ih true false]
        · by_cases hc2 : c = ']'
          · subst hc2
            have e1 : noNestAux b (']' :: collapseAux false cs)
                = noNestAux false (collapseAux false cs) := by
              rw [noNestAux, if_neg (by decide), if_pos rfl]
            have e2 : noNestAux b (']' :: cs) = noNestAux false cs := by
              rw [noNestAux, if_neg (by decide), if_pos rfl]
            rw [e1, e2, ih false false]
          · have e1 : noNestAux b (c :: collapseAux false cs)
                = noNestAux b (collapseAux false cs) := by
              rw [noNestAux, if_neg hc, if_neg hc2]
            have e2 : noNestAux b (c :: cs) = noNestAux b cs := by
              rw [noNestAux, if_neg hc, if_neg hc2]
            rw [e1, e2, ih b false]

theorem balanced_editPat : BalancedPat editPat "edit".data := by
  constructor
  · rfl
  · decide

theorem balanced_citPat : BalancedPat citPat "citation needed".data := by
  constructor
  · rfl
  · decide

/-- after the three removal passes and the trim, a string with no nested
opening brackets contains none of the three citation artifacts. -/
theorem stripMarkersL_marker_free {l : List Char} (h : noNestAux false l = true) :
    hasLit editPat (stripMarkersL l) = false ∧
    hasDig (stripMarkersL l) = false ∧
    hasLit citPat (stripMarkersL l) = false := by
  have hn1 : noNestAux false (removeEdit l) = true :=
    removeLit_noNest balanced_editPat l false h
  have hn2 : noNestAux false (removeDig (removeEdit l)) = true :=
    removeDig_noNest (removeEdit l) false hn1
  refine ⟨?_, ?_, ?_⟩
  · cases hed : hasLit editPat (stripMarkersL l)
    · rfl
    · exfalso
      have h3 : hasLit editPat (removeCit (removeDig (removeEdit l))) = true :=
        hasLit_pyStripL hed
      have h2' : hasLit editPat (removeDig (removeEdit l)) = true :=
        removeLit_reflect_hasLit balanced_citPat balanced_editPat _ false hn2 h3
      have h1' : hasLit editPat (removeEdit l) = true :=
        removeDig_reflect_hasLit balanced_editPat (removeEdit l) false hn1 h2'
      have h0 : hasLit editPat (removeLit editPat l) = false :=
        removeLit_self_absent balanced_editPat l false h
      rw [removeEdit] at h1'
      rw [h1'] at h0
      exact absurd h0 (by decide)
  · cases hdg : hasDig (stripMarkersL l)
    · rfl
    · exfalso
      have h3 : hasDig (removeCit (removeDig (removeEdit l))) = true :=
        hasDig_pyStripL hdg
      have h2' : hasDig (removeDig (removeEdit l)) = true :=
        removeLit_reflect_hasDig balanced_citPat _ false hn2 h3
      have h0 : hasDig (removeDig (removeEdit l)) = false :=
        removeDig_self_absent (removeEdit l) false hn1
      rw [h2'] at h0
      exact absurd h0 (by decide)
  · cases hct : hasLit citPat (stripMarkersL l)
    · rfl
    · exfalso
      have h3 : hasLit citPat (removeCit (removeDig (removeEdit l))) = true :=
        hasLit_pyStripL hct
      have h0 : hasLit citPat (removeLit citPat (removeDig (removeEdit l))) = false :=
        removeLit_self_absent balanced_citPat _ false hn2
      rw [removeCit] at h3
      rw [h3] at h0
      exact absurd h0 (by decide)

theorem escChar_no_lt (c : Char) : '<' ∉ escChar c := by
  unfold escChar
  repeat' split
  all_goals simp_all
  rintro rfl
  simp at *

theorem escapeL_no_lt (l : List Char) : '<' ∉ escapeL l := by
  unfold escapeL
  intro h
  rw [List.mem_flatten] at h
  rcases h with ⟨s, hs, hmem⟩
  rw [List.mem_map] at hs
  rcases hs with ⟨c, _, rfl⟩
  exact escChar_no_lt c hmem

theorem no_lt_no_tag {l : List Char} (h : '<' ∉ l) (t : List Char) :
    hasLit ('<' :: t) l = false := by
  cases hb : hasLit ('<' :: t) l
  · rfl
  · exfalso
    rcases hasLit_iff_seg.mp hb with ⟨u, v, huv⟩
    apply h
    rw [← huv]
    simp

theorem pyMaxBy_step (key : Node → Nat) (x y : Node) (ys : List Node) :
    pyMaxBy key x (y :: ys) = pyMaxBy key (if key x < key y then y else x) ys := rfl

theorem pyMaxBy_mem (key : Node → Nat) (x : Node) (xs : List Node) :
    pyMaxBy key x xs ∈ x :: xs := by
  induction xs generalizing x with
  | nil => simp [pyMaxBy]
  | cons y ys ih =>
      rw [pyMaxBy_step]
      have := ih (if key x < key y then y else x)
      rcases List.mem_cons.mp this with h | h
      · rw [h]
        split
        · simp
        · simp
      · simp [h]

theorem pyMaxBy_le (key : Node → Nat) (x : Node) (xs : List Node) :
    ∀ d ∈ x :: xs, key d ≤ key (pyMaxBy key x xs) := by
  induction xs generalizing x with
  | nil =>
      intro d hd
      simp at hd
      subst hd
      simp [pyMaxBy]
  | cons y ys ih =>
      intro d hd
      rw [pyMaxBy_step]
      have hxa : key x ≤ key (if key x < key y then y else x) := by
        split <;> omega
      have hya : key y ≤ key (if key x < key y then y else x) := by
        split <;> omega
      have hhead := ih (if key x < key y then y else x)
        (if key x < key y then y else x) (by simp)
      rcases List.mem_cons.mp hd with rfl | hd2
      · exact le_trans hxa hhead
      · rcases List.mem_cons.mp hd2 with rfl | hd3
        · exact le_trans hya hhead
        · exact ih (if key x < key y then y else x) d (by simp [hd3])

theorem specFirstMax_eq_pyMaxBy (xs : List Node) : ∀ (x : Node),
    specFirstMax (x :: xs) = some (pyMaxBy Node.childCount x xs) := by
  induction xs with
  | nil =>
      intro x
      unfold specFirstMax pyMaxBy
      rw [List.find?_cons_of_pos _ (by simp)]
      rfl
  | cons y ys ih =>
      intro x
      unfold specFirstMax
      simp only [List.map_cons, List.foldr_cons]
      by_cases hxy : x.childCount < y.childCount
      · rw [pyMaxBy_step, if_pos hxy]
        rw [List.find?_cons_of_neg _ (by simp; omega)]
        have hsame : max x.childCount (max y.childCount ((ys.map Node.childCount).foldr max 0))
            = max y.childCount ((ys.map Node.childCount).foldr max 0) := by
          omega
        simp only [hsame]
        have hy := ih y
        unfold specFirstMax at hy
        simp only [List.map_cons, List.foldr_cons] at hy
        exact hy
      · rw [pyMaxBy_step, if_neg hxy]
        have hx := ih x
        unfold specFirstMax at hx
        simp only [List.map_cons, List.foldr_cons] at hx
        have hsame : max x.childCount (max y.childCount ((ys.map Node.childCount).foldr max 0))
            = max x.childCount ((ys.map Node.childCount).foldr max 0) := by
          omega
        simp only [hsame]
        by_cases hpx : max x.childCount ((ys.map Node.childCount).foldr max 0) ≤ x.childCount
        · have hx2 : some x = some (pyMaxBy Node.childCount x ys) := by
            rw [← hx, List.find?_cons_of_pos _ (by simpa using hpx)]
          rw [List.find?_cons_of_pos _ (by simpa using hpx)]
          exact hx2
        · rw [List.find?_cons_of_neg _ (by simp; omega)]
          rw [List.find?_cons_of_neg _ (by simp; omega)]
          rw [List.find?_cons_of_neg _ (by simpa using hpx)] at hx
          exact hx

theorem collectImages_length (limit : Nat) (title : String) (l : List Node) :
    ∀ (count : Nat) (seen : List String),
      (collectImages limit title l count seen).length ≤ limit - count := by
  induction l with
  | nil =>
      intro count seen
      rw [collectImages]
      simp
  | cons tag rest ih =>
      intro count seen
      simp only [collectImages]
      split
      · simp
      · rename_i hcount
        split
        · exact ih count seen
        · rename_i pre path _
          split
          · exact ih count seen
          · split
            · exact ih count ((pre ++ path) :: seen)
            · simp only [List.length_cons]
              have := ih (count + 1) ((pre ++ path) :: seen)
              omega

/-- once a path is in the seen set it can never be emitted. -/
theorem collectImages_seen_absent (limit : Nat) (title : String) (p : String)
    (l : List Node) :
    ∀ (count : Nat) (seen : List String), p ∈ seen →
      p ∉ (collectImages limit title l count seen).map Prod.fst := by
  induction l with
  | nil =>
      intro count seen _
      rw [collectImages]
      simp
  | cons tag rest ih =>
      intro count seen hp
      simp only [collectImages]
      split
      · simp
      · split
        · exact ih count seen hp
        · rename_i pre path heq
          split
          · exact ih count seen hp
          · rename_i hdup
            split
            · exact ih count ((pre ++ path) :: seen) (by simp [hp])
            · rename_i hsize
              simp only [List.map_cons, List.mem_cons]
              intro hmem
              rcases hmem with hmem | hmem
              · apply hdup
                rw [← hmem]
                simpa using hp
              · exact ih (count + 1) ((pre ++ path) :: seen) (by simp [hp]) hmem

/-- if the first occurrence of path `p` fails the size filter, `p` is
recorded in the seen set before being dropped, so it never appears. -/
theorem collectImages_firstRejected_absent (limit : Nat) (title : String)
    (p : String) (l : List Node) :
    ∀ (count : Nat) (seen : List String), firstOccRejected p l = true →
      p ∉ (collectImages limit title l count seen).map Prod.fst := by
  induction l with
  | nil =>
      intro count seen _
      rw [collectImages]
      simp
  | cons tag rest ih =>
      intro count seen hrej
      simp only [collectImages]
      split
      · simp
      · rw [firstOccRejected] at hrej
        split
        · rename_i heq
          rw [heq] at hrej
          dsimp only at hrej
          exact ih count seen hrej
        · rename_i pre path heq
          rw [heq] at hrej
          dsimp only at hrej
          by_cases hfp : pre ++ path = p
          · rw [if_pos hfp] at hrej
            split
            · rename_i hdup
              exact collectImages_seen_absent limit title p rest count seen
                (by rw [← hfp]; simpa using hdup)
            · have hmem : p ∈ (pre ++ path) :: seen := by simp [hfp]
              exact collectImages_seen_absent limit title p rest count
                ((pre ++ path) :: seen) hmem
          · rw [if_neg hfp] at hrej
            split
            · exact ih count seen hrej
            · split
              · exact ih count ((pre ++ path) :: seen) hrej
              · simp only [List.map_cons, List.mem_cons]
                intro hmem
                rcases hmem with hmem | hmem
                · exact hfp hmem.symm
                · exact ih (count + 1) ((pre ++ path) :: seen) hrej hmem

/-! ## Claim theorems -/

/-- C9: the article transformation is deterministic — rendering the same
parsed content twice with the same preference values yields byte-identical
body output (`process_content` is a pure function of its inputs, with no
hidden state). -/
theorem C9_process_content_deterministic (t1 t2 : Node) (p1 p2 : String)
    (ht : t1 = t2) (hp : p1 = p2) :
    process_content t1 p1 = process_content t2 p2 := by
  rw [ht, hp]

/-- witness for C9 at a concrete article body. -/
theorem C9_witness :
    process_content exampleContent "" = process_content exampleContent "" :=
  C9_process_content_deterministic exampleContent exampleContent "" "" rfl rfl

/-- C2: image extraction in mode `'0'` yields no image references, in
mode `'1'` at most one (a hero and an empty gallery), and in mode `'a'`
at most `MAX_IMAGES = 10`, no matter how many image elements the tree
contains. -/
theorem C2_image_mode_bound (content : Node) (title : String) :
    extract_article_images content title "0" MAX_IMAGES = ("", "") ∧
    (collectImages 1 title (content.findAll isImgWithSrc) 0 []).length ≤ 1 ∧
    (extract_article_images content title "1" MAX_IMAGES).2 = "" ∧
    (collectImages MAX_IMAGES title (content.findAll isImgWithSrc) 0 []).length
      ≤ MAX_IMAGES := by
  refine ⟨?_, ?_, ?_, ?_⟩
  · rw [extract_article_images, if_pos rfl]
  · simpa using collectImages_length 1 title (content.findAll isImgWithSrc) 0 []
  · have hlen : (collectImages 1 title (content.findAll isImgWithSrc) 0 []).length ≤ 1 := by
      simpa using collectImages_length 1 title (content.findAll isImgWithSrc) 0 []
    rw [extract_article_images, if_neg (by decide)]
    simp only [if_pos rfl]
    split
    · rfl
    · rename_i first others heq
      have hol : others = [] := by
        have h2 := congrArg List.length heq
        simp at h2
        cases ho : others with
        | nil => rfl
        | cons a b =>
            exfalso
            rw [ho] at h2
            simp at h2
            omega
      simp [hol]
  · simpa using collectImages_length MAX_IMAGES title (content.findAll isImgWithSrc) 0 []

/-- C3: the content root is the candidate `mw-parser-output` container
with the most direct children (the first such candidate on a tie), and
rendering fails with the error page exactly when no candidate exists or
none has any children — one content root per article, or failure. -/
theorem C3_content_root (soup : Node) :
    (∀ c, wikiContent soup = some c →
        specFirstMax (soup.findAll isParserOutput) = some c ∧ 0 < c.childCount) ∧
    (wikiContent soup = none ↔
      (soup.findAll isParserOutput = [] ∨
        ∀ d ∈ soup.findAll isParserOutput, d.childCount = 0)) := by
  rcases hfa : soup.findAll isParserOutput with _ | ⟨x, xs⟩
  · refine ⟨?_, ?_⟩
    · intro c hc
      rw [wikiContent, hfa] at hc
      cases hc
    · constructor
      · intro _
        exact Or.inl rfl
      · intro _
        rw [wikiContent, hfa]
  · refine ⟨?_, ?_⟩
    · intro c hc
      rw [wikiContent, hfa] at hc
      simp only at hc
      split at hc
      · cases hc
      · rename_i hzero
        cases hc
        exact ⟨specFirstMax_eq_pyMaxBy xs x, by omega⟩
    · rw [wikiContent, hfa]
      simp only
      constructor
      · intro h
        split at h
        · rename_i hzero
          right
          intro d hd
          have hle := pyMaxBy_le Node.childCount x xs d hd
          omega
        · cases h
      · rintro (h | h)
        · cases h
        · have hz : (pyMaxBy Node.childCount x xs).childCount = 0 := by
            have hmem := pyMaxBy_mem Node.childCount x xs
            exact h _ hmem
          rw [if_pos hz]

/-- witness for C3 on a soup with two candidate containers of one and
two children: the denser, later one is selected. -/
theorem C3_witness :
    specFirstMax (twoRootSoup.findAll isParserOutput) = some denseRoot ∧
    0 < denseRoot.childCount :=
  (C3_content_root twoRootSoup).1 denseRoot rfl

/-- C5: a declared Content-Length above 5 MiB, or a received body above
5 MiB, keeps the payload away from the decoder and returns the `none`
"not available" signal; network failure, a non-2xx status, an
undecodable image and an encode failure all degrade to the same `none`,
never an exception to the caller. -/
theorem C5_size_ceiling (env : ImgEnv) (cache : List (String × List Nat))
    (url : String) (w : Nat)
    (hmiss : cacheLookup cache (env.digest url ++ ".gif") = none) :
    (∀ r, env.fetch url = some r → r.ok = true →
        declaredLenCheck r.contentLength = LenCheck.isOver →
        (fetch_and_convert_image env cache url w).result = none ∧
        (fetch_and_convert_image env cache url w).decodes = 0) ∧
    (∀ r, env.fetch url = some r → r.ok = true →
        declaredLenCheck r.contentLength = LenCheck.fine →
        MAX_IMG_BYTES < r.body.length →
        (fetch_and_convert_image env cache url w).result = none ∧
        (fetch_and_convert_image env cache url w).decodes = 0) ∧
    (env.fetch url = none →
        (fetch_and_convert_image env cache url w).result = none ∧
        (fetch_and_convert_image env cache url w).decodes = 0) ∧
    (∀ r, env.fetch url = some r → r.ok = false →
        (fetch_and_convert_image env cache url w).result = none ∧
        (fetch_and_convert_image env cache url w).decodes = 0) ∧
    (∀ r, env.fetch url = some r → r.ok = true →
        declaredLenCheck r.contentLength = LenCheck.fine →
        r.body.length ≤ MAX_IMG_BYTES → env.decodeImg r.body = none →
        (fetch_and_convert_image env cache url w).result = none) ∧
    ((∀ img, env.encodeGif img = none) →
        (fetch_and_convert_image env cache url w).result = none) := by
  have hprobe : (if env.debug = false ∧ env.readOk = true
      then cacheLookup cache (env.digest url ++ ".gif") else none) = none := by
    split
    · exact hmiss
    · rfl
  refine ⟨?_, ?_, ?_, ?_, ?_, ?_⟩
  · intro r hf hok hlc
    constructor <;> simp [fetch_and_convert_image, hprobe, hf, hok, hlc]
  · intro r hf hok hlc hbl
    constructor <;> simp [fetch_and_convert_image, hprobe, hf, hok, hlc, hbl]
  · intro hf
    constructor <;> simp [fetch_and_convert_image, hprobe, hf]
  · intro r hf hok
    constructor <;> simp [fetch_and_convert_image, hprobe, hf, hok]
  · intro r hf hok hlc hbl hdec
    simp [fetch_and_convert_image, hprobe, hf, hok, hlc, Nat.not_lt.mpr hbl, hdec]
  · intro henc
    rcases hf : env.fetch url with _ | r
    · simp [fetch_and_convert_image, hprobe, hf]
    · cases hok : r.ok
      · simp [fetch_and_convert_image, hprobe, hf, hok]
      · cases hlc : declaredLenCheck r.contentLength
        · simp [fetch_and_convert_image, hprobe, hf, hok, hlc]
        · simp [fetch_and_convert_image, hprobe, hf, hok, hlc]
        · by_cases hbl : MAX_IMG_BYTES < r.body.length
          · simp [fetch_and_convert_image, hprobe, hf, hok, hlc, hbl]
          · rcases hdec : env.decodeImg r.body with _ | img
            · simp [fetch_and_convert_image, hprobe, hf, hok, hlc, hbl, hdec]
            · simp [fetch_and_convert_image, hprobe, hf, hok, hlc, hbl, hdec, henc]

/-- witness for C5: concrete environments exercising the oversize-header,
oversize-body, network-failure, bad-image and bad-encoder branches. -/
theorem C5_witness :
    ((fetch_and_convert_image oversizeHeaderEnv [] "u" 200).result = none ∧
     (fetch_and_convert_image oversizeHeaderEnv [] "u" 200).decodes = 0) ∧
    ((fetch_and_convert_image oversizeBodyEnv [] "u" 200).result = none ∧
     (fetch_and_convert_image oversizeBodyEnv [] "u" 200).decodes = 0) ∧
    ((fetch_and_convert_image downNetworkEnv [] "u" 200).result = none ∧
     (fetch_and_convert_image downNetworkEnv [] "u" 200).decodes = 0) ∧
    (fetch_and_convert_image badImageEnv [] "u" 200).result = none ∧
    (fetch_and_convert_image badEncodeEnv [] "u" 200).result = none := by
  refine ⟨?_, ?_, ?_, ?_, ?_⟩
  · exact (C5_size_ceiling oversizeHeaderEnv [] "u" 200 rfl).1
      { ok := true, contentLength := some "5242881", body := [7] } rfl rfl (by decide)
  · exact (C5_size_ceiling oversizeBodyEnv [] "u" 200 rfl).2.1
      { ok := true, contentLength := none,
        body := List.replicate (5 * 1024 * 1024 + 1) 0 } rfl rfl rfl
      (by rw [List.length_replicate]; norm_num [MAX_IMG_BYTES])
  · exact (C5_size_ceiling downNetworkEnv [] "u" 200 rfl).2.2.1 rfl
  · exact (C5_size_ceiling badImageEnv [] "u" 200 rfl).2.2.2.2.1
      { ok := true, contentLength := some "3", body := [7, 8, 9] } rfl rfl (by decide)
      (by decide) rfl
  · exact (C5_size_ceiling badEncodeEnv [] "u" 200 rfl).2.2.2.2.2 (fun _ => rfl)

theorem cacheLookup_insert (cache : List (String × List Nat)) (k : String)
    (b : List Nat) : cacheLookup ((k, b) :: cache) k = some b := by
  simp [cacheLookup]

/-- a cache hit is returned verbatim with no fetch, no decode, and no
cache change. -/
theorem fetch_convert_hit (env : ImgEnv) (cache : List (String × List Nat))
    (url : String) (w : Nat) (b : List Nat)
    (hdebug : env.debug = false) (hread : env.readOk = true)
    (hhit : cacheLookup cache (env.digest url ++ ".gif") = some b) :
    fetch_and_convert_image env cache url w =
      { result := some b, fetches := 0, decodes := 0, cacheAfter := cache } := by
  simp [fetch_and_convert_image, hdebug, hread, hhit]

/-- a successful call leaves the returned bytes in the cache under the
digest key. -/
theorem fetch_convert_writes (env : ImgEnv) (cache : List (String × List Nat))
    (url : String) (w : Nat) (b : List Nat)
    (hdebug : env.debug = false) (hread : env.readOk = true)
    (hwrite : env.writeOk = true)
    (h1 : (fetch_and_convert_image env cache url w).result = some b) :
    cacheLookup (fetch_and_convert_image env cache url w).cacheAfter
      (env.digest url ++ ".gif") = some b := by
  rcases hc : cacheLookup cache (env.digest url ++ ".gif") with _ | data
  · rcases hf : env.fetch url with _ | r
    · exfalso
      rw [show (fetch_and_convert_image env cache url w).result = none by
        simp [fetch_and_convert_image, hdebug, hread, hc, hf]] at h1
      cases h1
    · cases hok : r.ok
      · exfalso
        rw [show (fetch_and_convert_image env cache url w).result = none by
          simp [fetch_and_convert_image, hdebug, hread, hc, hf, hok]] at h1
        cases h1
      · cases hlc : declaredLenCheck r.contentLength
        · exfalso
          rw [show (fetch_and_convert_image env cache url w).result = none by
            simp [fetch_and_convert_image, hdebug, hread, hc, hf, hok, hlc]] at h1
          cases h1
        · exfalso
          rw [show (fetch_and_convert_image env cache url w).result = none by
            simp [fetch_and_convert_image, hdebug, hread, hc, hf, hok, hlc]] at h1
          cases h1
        · by_cases hbl : MAX_IMG_BYTES < r.body.length
          · exfalso
            rw [show (fetch_and_convert_image env cache url w).result = none by
              simp [fetch_and_convert_image, hdebug, hread, hc, hf, hok, hlc, hbl]] at h1
            cases h1
          · rcases hdec : env.decodeImg r.body with _ | img0
            · exfalso
              rw [show (fetch_and_convert_image env cache url w).result = none by
                simp [fetch_and_convert_image, hdebug, hread, hc, hf, hok, hlc,
                  hbl, hdec]] at h1
              cases h1
            · rcases henc : env.encodeGif
                (if w < (if img0.mode = "RGBA" ∨ img0.mode = "P"
                    then env.convert img0 "RGB" else img0).width
                 then env.resize (if img0.mode = "RGBA" ∨ img0.mode = "P"
                    then env.convert img0 "RGB" else img0) w
                 else (if img0.mode = "RGBA" ∨ img0.mode = "P"
                    then env.convert img0 "RGB" else img0)) with _ | gif
              · exfalso
                rw [show (fetch_and_convert_image env cache url w).result = none by
                  simp [fetch_and_convert_image, hdebug, hread, hc, hf, hok, hlc,
                    hbl, hdec, henc]] at h1
                cases h1
              · have hcall : fetch_and_convert_image env cache url w =
                    { result := some gif, fetches := 1, decodes := 1,
                      cacheAfter := (env.digest url ++ ".gif", gif) :: cache } := by
                  simp [fetch_and_convert_image, hdebug, hread, hwrite, hc, hf,
                    hok, hlc, hbl, hdec, henc]
                rw [hcall] at h1
                simp only at h1
                rw [hcall]
                simp only
                rw [cacheLookup_insert]
                rw [h1]
  · have hcall := fetch_convert_hit env cache url w data hdebug hread hc
    rw [hcall] at h1 ⊢
    simp only at h1 ⊢
    rw [hc, h1]

/-- C6: after a first successful transcoding call (production mode,
working cache files), a second call with the same URL returns bytes
identical to the first and issues no upstream fetch: the key is the
digest of the URL and an existing entry is returned verbatim. -/
theorem C6_cache_idempotent (env : ImgEnv) (cache : List (String × List Nat))
    (url : String) (w : Nat) (b : List Nat)
    (hdebug : env.debug = false) (hread : env.readOk = true)
    (hwrite : env.writeOk = true)
    (h1 : (fetch_and_convert_image env cache url w).result = some b) :
    (fetch_and_convert_image env
        (fetch_and_convert_image env cache url w).cacheAfter url w).result = some b ∧
    (fetch_and_convert_image env
        (fetch_and_convert_image env cache url w).cacheAfter url w).fetches = 0 := by
  have hkey := fetch_convert_writes env cache url w b hdebug hread hwrite h1
  have hsecond := fetch_convert_hit env
    (fetch_and_convert_image env cache url w).cacheAfter url w b hdebug hread hkey
  rw [hsecond]
  exact ⟨rfl, rfl⟩

/-- witness for C6 with a concrete deterministic environment: the first
call produces the encoded bytes, the second serves them from cache. -/
theorem C6_witness :
    (fetch_and_convert_image happyEnv
        (fetch_and_convert_image happyEnv [] "u" 200).cacheAfter "u" 200).result
      = some [1, 2, 4] ∧
    (fetch_and_convert_image happyEnv
        (fetch_and_convert_image happyEnv [] "u" 200).cacheAfter "u" 200).fetches
      = 0 :=
  C6_cache_idempotent happyEnv [] "u" 200 [1, 2, 4] rfl rfl rfl (by decide)

theorem extractTail_sound {q pre p : String} {l : List Char}
    (h : extractTail q l = some (pre, p)) :
    pyAllowMatch p.data = true ∧ hasLit "..".data p.data = false := by
  unfold extractTail at h
  split at h
  · cases h
  · rename_i hcond
    have hc : ¬(pyAllowMatch l = false ∨ hasLit "..".data l = true) := by
      intro hor
      apply hcond
      rcases hor with h1 | h1 <;> simp [h1]
    cases h
    push_neg at hc
    constructor
    · have := hc.1
      simpa using this
    · have := hc.2
      simpa using this

/-- C4 (amended): `extract_image_path` keeps only paths that satisfy the
allow-set regex (with Python's trailing-newline tolerance of `$`) and
contain no `..`; at the proxy such invalid paths receive a 400 with no
upstream request when the image mode is not `'0'`, and never trigger an
upstream request in any mode. -/
theorem C4_path_safety :
    (∀ src pre p, extract_image_path src = some (pre, p) →
        pyAllowMatch p.data = true ∧ hasLit "..".data p.data = false) ∧
    (∀ mode path, mode ≠ "0" →
        (pyAllowMatch path.data = false ∨ hasLit "..".data path.data = true) →
        proxy_image mode path = ProxyOutcome.badRequest) ∧
    (∀ mode path u,
        (pyAllowMatch path.data = false ∨ hasLit "..".data path.data = true) →
        proxy_image mode path ≠ ProxyOutcome.fetchUpstream u) := by
  have hbad : ∀ mode path, mode ≠ "0" →
      (pyAllowMatch path.data = false ∨ hasLit "..".data path.data = true) →
      proxy_image mode path = ProxyOutcome.badRequest := by
    intro mode path hm hcond
    unfold proxy_image
    rw [if_neg hm]
    rcases hcond with h1 | h1
    · rw [if_pos (by simp [h1])]
    · by_cases h2 : pyAllowMatch path.data = false
      · rw [if_pos (by simp [h2])]
      · have h2' : pyAllowMatch path.data = true := by
          cases hb : pyAllowMatch path.data
          · exact absurd hb h2
          · rfl
        rw [if_neg (by simp [h2']), if_pos h1]
  refine ⟨?_, hbad, ?_⟩
  · intro src pre p h
    unfold extract_image_path at h
    split at h
    · cases h
    · split at h
      · exact extractTail_sound h
      · split at h
        · exact extractTail_sound h
        · cases h
  · intro mode path u hcond
    by_cases hm : mode = "0"
    · unfold proxy_image
      rw [if_pos hm]
      intro hfalse
      cases hfalse
    · rw [hbad mode path hm hcond]
      intro hfalse
      cases hfalse

/-- C4 counterexample: with image mode `'0'` a traversal path is answered
with the 1×1 placeholder GIF (a 200), not a 400; and a path whose only
invalid character is a single trailing newline slips through the regex —
the proxy proceeds to an upstream fetch and the extractor keeps the
reference. -/
theorem C4_counterexample :
    proxy_image "0" ".." = ProxyOutcome.placeholder ∧
    proxy_image "1" "a\n" = ProxyOutcome.fetchUpstream
      "https://upload.wikimedia.org/wikipedia/commons/a\n" ∧
    extract_image_path "https://upload.wikimedia.org/wikipedia/commons/a.jpg\n"
      = some ("", "a.jpg\n") := by
  refine ⟨by decide, by decide, ?_⟩
  simp +decide [extract_image_path, extractTail, afterLastSplit, splitSub,
    hasLit, pyAllowMatch, allowSetChar, List.isPrefixOf]

/-- witness for C4: a traversal path is rejected with a 400, and an
out-of-alphabet path never reaches upstream. -/
theorem C4_witness :
    proxy_image "1" ".." = ProxyOutcome.badRequest ∧
    proxy_image "a" "x<y" ≠ ProxyOutcome.fetchUpstream "u" :=
  ⟨C4_path_safety.2.1 "1" ".." (by decide) (Or.inr (by decide)),
   C4_path_safety.2.2 "a" "x<y" "u" (Or.inl (by decide))⟩

/-- C8 (amended): bold and strong inline elements are always flattened to
escaped plain text (dropped when whitespace-only); the bold branch never
emits a bold tag and does not depend on the preference string, so no skin
or preference selects a bold-preserving mode. -/
theorem C8_bold_flattened (attrs : List (String × String)) (cls : List String)
    (children : NodeList) (prefs : String) (tag : String)
    (htag : tag = "b" ∨ tag = "strong") :
    inlinePiece (Node.elem tag attrs cls children) prefs =
      (if pyStrip (NodeList.getTextL children) = "" then ""
       else escapeS (NodeList.getTextL children)) ∧
    containsSub "<b" (inlinePiece (Node.elem tag attrs cls children) prefs)
      = false := by
  have heq : inlinePiece (Node.elem tag attrs cls children) prefs =
      (if pyStrip (NodeList.getTextL children) = "" then ""
       else escapeS (NodeList.getTextL children)) := by
    rcases htag with rfl | rfl
    · rw [inlinePiece, if_neg (by decide), if_pos (by decide)]
    · rw [inlinePiece, if_neg (by decide), if_pos (by decide)]
  refine ⟨heq, ?_⟩
  rw [heq]
  split
  · decide
  · show hasLit ('<' :: "b".data) (escapeL (NodeList.getTextL children).data) = false
    exact no_lt_no_tag (escapeL_no_lt _) _

/-- C8 counterexample: for every preference string the route layer can
produce, the bold element of `<p><b>x</b> y</p>` renders flattened — no
configuration yields a bold tag. -/
theorem C8_counterexample :
    process_paragraph boldParagraph "" = "x y" ∧
    process_paragraph boldParagraph "skin=dark" = "x y" ∧
    process_paragraph boldParagraph "img=0" = "x y" ∧
    process_paragraph boldParagraph "img=a" = "x y" ∧
    process_paragraph boldParagraph "skin=dark&img=0" = "x y" ∧
    process_paragraph boldParagraph "skin=dark&img=a" = "x y" ∧
    containsSub "<b" (process_paragraph boldParagraph "") = false := by
  refine ⟨?_, ?_, ?_, ?_, ?_, ?_, ?_⟩ <;>
    simp +decide [process_paragraph, inlinePieces, inlinePiece, postProcess,
      stripMarkersL, removeEdit, removeCit, removeLit, removeDig, digMatch,
      pyStripL, pyStrip, collapseWs, collapseAux, escapeS, escapeL, escChar,
      isPySpace, editPat, citPat, NodeList.getTextL, Node.getText, attrLookup,
      nodesOf, boldParagraph, hasLit, Node.nodeString, containsSub,
      List.isPrefixOf]

/-- witness for C8: a concrete strong element flattens to its text. -/
theorem C8_witness :
    inlinePiece (Node.elem "strong" [] [] (nodesOf [Node.text "x"])) "skin=dark" =
      (if pyStrip (NodeList.getTextL (nodesOf [Node.text "x"])) = "" then ""
       else escapeS (NodeList.getTextL (nodesOf [Node.text "x"]))) :=
  (C8_bold_flattened [] [] (nodesOf [Node.text "x"]) "skin=dark" "strong"
    (Or.inr rfl)).1

theorem exampleContent_render :
    process_content exampleContent "" =
      "<p>See <a href=\"/wiki/Computer\">Computer</a> and .</p>" := by
  simp +decide [process_content, process_element, processChildren, blockLines,
    process_paragraph, inlinePieces, inlinePiece, postProcess, stripMarkersL,
    removeEdit, removeCit, removeLit, removeDig, digMatch, pyStripL, pyStrip,
    collapseWs, collapseAux, escapeS, escapeL, escChar, isPySpace,
    editPat, citPat, Node.getText, NodeList.getTextL, attrLookup, nodesOf,
    exampleContent, exampleParagraph, hasLit, Node.nodeString, List.isPrefixOf]

theorem anchor_contains (s : String) :
    containsSub "<a href=" ("<a href=\"" ++ s) = true := by
  unfold containsSub
  apply hasLit_of_isPrefixOf
  rw [isPrefixOfIffPre, String.data_append]
  have h1 : "<a href=".data <+: "<a href=\"".data := by
    rw [← isPrefixOfIffPre]
    decide
  exact h1.trans (List.prefix_append _ _)

/-- C1 (amended): in inline context an anchor tag is emitted iff the href
starts with `/wiki/`, contains no colon, and the visible text is
non-empty after stripping; every other hyperlink contributes nothing at
all — it is dropped, not replaced by its bare text — so the spec's
example paragraph renders with the external link erased. -/
theorem C1_link_safety :
    (∀ (attrs : List (String × String)) (cls : List String)
        (children : NodeList) (prefs : String),
      (containsSub "<a href="
          (inlinePiece (Node.elem "a" attrs cls children) prefs) = true ↔
        (pyStrip (NodeList.getTextL children) ≠ "" ∧
         "/wiki/".data.isPrefixOf ((attrLookup attrs "href").getD "").data = true ∧
         hasLit [':'] ((attrLookup attrs "href").getD "").data = false)) ∧
      ((pyStrip (NodeList.getTextL children) = "" ∨
        "/wiki/".data.isPrefixOf ((attrLookup attrs "href").getD "").data = false ∨
        hasLit [':'] ((attrLookup attrs "href").getD "").data = true) →
        inlinePiece (Node.elem "a" attrs cls children) prefs = "")) ∧
    process_content exampleContent "" =
      "<p>See <a href=\"/wiki/Computer\">Computer</a> and .</p>" := by
  refine ⟨?_, exampleContent_render⟩
  intro attrs cls children prefs
  have hun : inlinePiece (Node.elem "a" attrs cls children) prefs =
      (if pyStrip (NodeList.getTextL children) = "" then ""
       else if "/wiki/".data.isPrefixOf ((attrLookup attrs "href").getD "").data
            && !hasLit [':'] ((attrLookup attrs "href").getD "").data then
         (if prefs ≠ "" then
            "<a href=\"" ++ escapeS ((attrLookup attrs "href").getD "") ++ "?"
              ++ prefs ++ "\">" ++ escapeS (NodeList.getTextL children) ++ "</a>"
          else "<a href=\"" ++ escapeS ((attrLookup attrs "href").getD "")
              ++ "\">" ++ escapeS (NodeList.getTextL children) ++ "</a>")
       else "") := by
    rw [inlinePiece, if_pos rfl]
  by_cases h1 : pyStrip (NodeList.getTextL children) = ""
  · rw [hun, if_pos h1]
    refine ⟨⟨?_, ?_⟩, ?_⟩
    · intro hc
      exact absurd hc (by decide)
    · rintro ⟨hne, _, _⟩
      exact absurd h1 hne
    · intro _
      rfl
  · by_cases h2 : ("/wiki/".data.isPrefixOf ((attrLookup attrs "href").getD "").data
        && !hasLit [':'] ((attrLookup attrs "href").getD "").data) = true
    · rw [hun, if_neg h1, if_pos h2]
      have h2' : "/wiki/".data.isPrefixOf ((attrLookup attrs "href").getD "").data
            = true ∧
          hasLit [':'] ((attrLookup attrs "href").getD "").data = false := by
        have hsplit : "/wiki/".data.isPrefixOf ((attrLookup attrs "href").getD "").data
              = true ∧
            (!hasLit [':'] ((attrLookup attrs "href").getD "").data) = true := by
          simpa using h2
        exact ⟨hsplit.1, by simpa using hsplit.2⟩
      refine ⟨⟨?_, ?_⟩, ?_⟩
      · intro _
        exact ⟨h1, h2'.1, h2'.2⟩
      · intro _
        split
        · simp only [String.append_assoc]
          exact anchor_contains _
        · simp only [String.append_assoc]
          exact anchor_contains _
      · rintro (hbad | hbad | hbad)
        · exact absurd hbad h1
        · rw [h2'.1] at hbad
          exact absurd hbad (by decide)
        · rw [h2'.2] at hbad
          exact absurd hbad (by decide)
    · rw [hun, if_neg h1, if_neg h2]
      refine ⟨⟨?_, ?_⟩, ?_⟩
      · intro hc
        exact absurd hc (by decide)
      · rintro ⟨_, hpre, hcol⟩
        exfalso
        apply h2
        rw [hpre, hcol]
        rfl
      · intro _
        rfl

/-- C1 counterexample: the spec's example paragraph renders with the
external link dropped entirely — the word `here` does not appear in the
output, which therefore differs from the spec's expected rendering. -/
theorem C1_counterexample :
    containsSub "here" (process_content exampleContent "") = false ∧
    process_content exampleContent "" ≠
      "<p>See <a href=\"/wiki/Computer\">Computer</a> and here.</p>" := by
  rw [exampleContent_render]
  exact ⟨by decide, by decide⟩

/-- witness for C1: the example's external link contributes nothing. -/
theorem C1_witness :
    inlinePiece (Node.elem "a" [("href", "https://example.com")] []
      (nodesOf [Node.text "here"])) "" = "" :=
  (C1_link_safety.1 [("href", "https://example.com")] []
      (nodesOf [Node.text "here"]) "").2
    (Or.inr (Or.inl (by decide)))

/-- C10 (amended): a resolved path is added to the seen set before the
size filter runs, so when the first occurrence of a path is rejected by
the filter every later occurrence of the same path is skipped as a
duplicate and the path never appears in the output; absent attributes do
not reject, and a `ValueError` while parsing the width skips the height
check too — so a non-numeric width bypasses the filter even when a
parseable height lies below the threshold, while a parseable width below
50 rejects. -/
theorem C10_seen_before_filter :
    (∀ (p : String) (limit : Nat) (title : String) (l : List Node)
        (count : Nat) (seen : List String), firstOccRejected p l = true →
        p ∉ (collectImages limit title l count seen).map Prod.fst) ∧
    sizeReject "" "" = false ∧
    sizeReject "abc" "10" = false ∧
    sizeReject "30" "" = true := by
  refine ⟨?_, by decide, by decide, by decide⟩
  intro p limit title l count seen h
  exact collectImages_firstRejected_absent limit title p l count seen h

/-- C10 counterexample: an image whose first occurrence has a
non-numeric width and a parseable height of 10 (below the 50-pixel
threshold) is accepted, and its path appears in the extraction output —
the claim said it never appears. -/
theorem C10_counterexample :
    pyInt "10" = some 10 ∧
    (collectImages MAX_IMAGES "T" (oddSizeContent.findAll isImgWithSrc) 0 []).map
        Prod.fst = ["thumb/x.jpg"] ∧
    extract_article_images oddSizeContent "T" "a" MAX_IMAGES ≠ ("", "") := by
  refine ⟨by decide, ?_, ?_⟩
  · simp +decide [collectImages, oddSizeContent, oddSizeImg, Node.findAll,
      findAllAux, findAllL, isImgWithSrc, nodesOf, Node.name, Node.get,
      Node.getD, Node.attrs, attrLookup, extract_image_path, extractTail,
      afterLastSplit, splitSub, hasLit, pyAllowMatch, allowSetChar,
      List.isPrefixOf, sizeReject, heightReject, pyInt, pyStripL, isPySpace,
      pyDigits, pyDigitsGo, imgRefHtml, escapeS, escapeL, escChar, MAX_IMAGES]
  · simp +decide [extract_article_images, collectImages, oddSizeContent,
      oddSizeImg, Node.findAll, findAllAux, findAllL, isImgWithSrc, nodesOf,
      Node.name, Node.get, Node.getD, Node.attrs, attrLookup,
      extract_image_path, extractTail, afterLastSplit, splitSub, hasLit,
      pyAllowMatch, allowSetChar, List.isPrefixOf, sizeReject, heightReject,
      pyInt, pyStripL, isPySpace, pyDigits, pyDigitsGo, imgRefHtml, escapeS,
      escapeL, escChar, MAX_IMAGES]

/-- witness for C10: a path whose first occurrence has width 30 is
rejected and recorded, and the same path without size attributes later in
the document stays excluded. -/
theorem C10_witness :
    "thumb/x.jpg" ∉
      (collectImages MAX_IMAGES "T" [smallImg, retryImg] 0 []).map Prod.fst :=
  C10_seen_before_filter.1 "thumb/x.jpg" MAX_IMAGES "T" [smallImg, retryImg] 0 []
    (by simp +decide [firstOccRejected, smallImg, retryImg, Node.getD, Node.get,
      Node.attrs, attrLookup, extract_image_path, extractTail, afterLastSplit,
      splitSub, hasLit, pyAllowMatch, allowSetChar, List.isPrefixOf, sizeReject,
      heightReject, pyInt, pyStripL, isPySpace, pyDigits, pyDigitsGo])

/-- C7 (amended): the renderer removes, in order, all left-to-right
non-overlapping occurrences of `[edit]`, then of bracketed digit markers,
then of `[citation needed]` from the concatenated text, and trims the
result; a removal can splice the surrounding characters into a new marker
which survives, so the guarantee that none of these substrings appears in
the rendered inline or block output holds for every text with no nested
opening bracket (no second `[` before an intervening `]`). -/
theorem C7_citation_stripping (s : String) (h : noNest s.data = true) :
    (containsSub "[edit]" (postProcess s) = false ∧
     hasDig (postProcess s).data = false ∧
     containsSub "[citation needed]" (postProcess s) = false) ∧
    (containsSub "[edit]" (clean_text s) = false ∧
     hasDig (clean_text s).data = false ∧
     containsSub "[citation needed]" (clean_text s) = false) := by
  constructor
  · have hm := stripMarkersL_marker_free (l := s.data) h
    exact ⟨hm.1, hm.2.1, hm.2.2⟩
  · have hcol : noNestAux false (collapseWs s.data) = true := by
      rw [show collapseWs s.data = collapseAux false s.data from rfl,
        noNestAux_collapse]
      exact h
    have hm := stripMarkersL_marker_free hcol
    exact ⟨hm.1, hm.2.1, hm.2.2⟩

/-- C7 counterexample: the digit pass splices `[[1]2]` into the fresh
marker `[2]`, which survives into the rendered block output. -/
theorem C7_counterexample :
    containsSub "[1]" "[[1]2]" = true ∧
    process_content spliceContent "" = "<blockquote>[2]</blockquote>" ∧
    hasDig (process_content spliceContent "").data = true := by
  have h2 : process_content spliceContent "" = "<blockquote>[2]</blockquote>" := by
    simp +decide [process_content, process_element, processChildren, blockLines,
      clean_text, stripMarkersL, removeEdit, removeCit, removeLit, removeDig,
      digMatch, pyStripL, pyStrip, collapseWs, collapseAux, escapeS, escapeL,
      escChar, isPySpace, editPat, citPat, Node.getText, NodeList.getTextL,
      nodesOf, spliceContent, hasLit, List.isPrefixOf]
  refine ⟨by decide, h2, ?_⟩
  rw [h2]
  decide

/-- witness for C7 on a typical article sentence. -/
theorem C7_witness :
    containsSub "[edit]" (clean_text "a [edit] b[1] c[citation needed]") = false ∧
    hasDig (clean_text "a [edit] b[1] c[citation needed]").data = false ∧
    containsSub "[citation needed]"
      (clean_text "a [edit] b[1] c[citation needed]") = false :=
  (C7_citation_stripping "a [edit] b[1] c[citation needed]" (by decide)).2
